import Mathlib

/-!
Verification of the `sp_recovery` mirror-recovery pipeline.

This file gives a shallow embedding, in Lean 4, of the pure core of the
`sp_recovery` Python package (URL canonicalization, CDX discovery and
canonical-capture selection, recovery scheduling, artifact recovery over an
explicit file-system state, HTML link rewriting, and CDX pagination), and
proves or refutes the specification's claims about that core.

Python `bytes` values are embedded as `List Nat` (each entry a byte value),
file systems as functions `String → Option (List Nat)`, and machine-level
hashing (`hashlib.sha256`) is embedded as a genuine SHA-256 implementation
over `Nat` arithmetic with explicit `% 2^32` reductions.

Conventions: Python functions keep their source names.  Python `str.lower`
is embedded for the ASCII range (all hosts and paths handled by the code are
ASCII).  Python `int(...)` on the 14-digit archive timestamps is embedded by
`String.toInt?` with default `0`; the archive data model guarantees numeric
timestamps, and no theorem below depends on the value taken at a
non-numeric timestamp string.
-/

/-! ### Generic string helpers (embedding Python `str` primitives)

All helpers work on the underlying `List Char` so that every definition
reduces inside the kernel (the `String`/`Substring` primitives do not). -/

/-- ASCII lowercase of a string, embedding Python `str.lower` on ASCII data. -/
def strLower (s : String) : String := ⟨s.data.map Char.toLower⟩

/-- Python default `str.strip` whitespace (ASCII subset). -/
def pyIsSpace (c : Char) : Bool :=
  c = ' ' || c = '\t' || c = '\n' || c = '\r' || c = '\x0b' || c = '\x0c'

/-- Python `str.strip()` on ASCII data. -/
def strStrip (s : String) : String :=
  ⟨((s.data.dropWhile pyIsSpace).reverse.dropWhile pyIsSpace).reverse⟩

/-- Kernel-reducible `String.isEmpty`. -/
def strIsEmpty (s : String) : Bool := s.data.isEmpty

/-- Kernel-reducible `String.startsWith`. -/
def strStarts (s pre : String) : Bool := pre.data.isPrefixOf s.data

/-- Kernel-reducible `String.endsWith`. -/
def strEnds (s suf : String) : Bool := suf.data.isSuffixOf s.data

/-- Kernel-reducible `String.drop`. -/
def strDrop (s : String) (n : Nat) : String := ⟨s.data.drop n⟩

/-- Split a char list at the first char satisfying `p`; the separator is
dropped.  Returns `none` when no char satisfies `p`. -/
def listSplitFirst (p : Char → Bool) : List Char → Option (List Char × List Char)
  | [] => none
  | c :: cs =>
      if p c then some ([], cs)
      else match listSplitFirst p cs with
        | some (l, r) => some (c :: l, r)
        | none => none

/-- Split a string at the last occurrence of `c` (Python `s.rsplit(c, 1)`),
returning `none` when `c` does not occur. -/
def rsplitLast (c : Char) (s : String) : Option (String × String) :=
  match listSplitFirst (fun x => x = c) s.data.reverse with
  | some (r, l) => some (⟨l.reverse⟩, ⟨r.reverse⟩)
  | none => none

/-- Python `str.isdigit` restricted to ASCII digits: non-empty and all digits. -/
def allDigits (s : String) : Bool :=
  !s.data.isEmpty && s.data.all Char.isDigit

/-- Python `s.rstrip(".")`: drop trailing dots. -/
def rstripDots (s : String) : String :=
  ⟨(s.data.reverse.dropWhile (fun c => c = '.')).reverse⟩

/-- Python `s.lstrip("/")`: drop leading slashes. -/
def lstripSlashes (s : String) : String :=
  ⟨s.data.dropWhile (fun c => c = '/')⟩

/-! ### urlparse (embedding `urllib.parse.urlparse`)

The embedding follows CPython's `urlsplit`/`_splitparams`: an optional
scheme (a leading run of scheme characters before the first `:`, first char
alphabetic), an optional `//netloc` delimited by `/`, `?` or `#`, then the
fragment split at the first `#`, the query at the first `?`, and `;params`
split out of the last path segment. -/

structure UrlParts where
  scheme : String
  netloc : String
  path : String
  params : String
  query : String
  fragment : String
deriving DecidableEq

def isSchemeChar (c : Char) : Bool :=
  c.isAlphanum || c = '+' || c = '-' || c = '.'

/-- Split off `scheme:` when the prefix before the first `:` is a valid,
non-empty scheme beginning with a letter. -/
def splitScheme (cs : List Char) : String × List Char :=
  match listSplitFirst (fun c => c = ':') cs with
  | some (pre, post) =>
      match pre with
      | [] => ("", cs)
      | c0 :: _ =>
          if c0.isAlpha && pre.all isSchemeChar then (strLower ⟨pre⟩, post)
          else ("", cs)
  | none => ("", cs)

/-- Split off `//netloc` when present; the netloc runs to the next
`/`, `?` or `#`. -/
def splitNetloc (cs : List Char) : String × List Char :=
  match cs with
  | '/' :: '/' :: rest =>
      let stop : Char → Bool := fun c => c = '/' || c = '?' || c = '#'
      (⟨rest.takeWhile (fun c => !stop c)⟩, rest.dropWhile (fun c => !stop c))
  | _ => ("", cs)

/-- CPython `_splitparams`: split `;params` out of the last path segment. -/
def splitParams (path : List Char) : String × String :=
  let lastSeg := (path.reverse.takeWhile (fun c => c ≠ '/')).reverse
  let before := path.take (path.length - lastSeg.length)
  match listSplitFirst (fun c => c = ';') lastSeg with
  | some (l, r) => (⟨before ++ l⟩, ⟨r⟩)
  | none => (⟨path⟩, "")

def urlparse (url : String) : UrlParts :=
  let (scheme, rest) := splitScheme url.data
  let (netloc, rest) := splitNetloc rest
  let (rest, fragment) :=
    match listSplitFirst (fun c => c = '#') rest with
    | some (l, r) => (l, (⟨r⟩ : String))
    | none => (rest, "")
  let (rest, query) :=
    match listSplitFirst (fun c => c = '?') rest with
    | some (l, r) => (l, (⟨r⟩ : String))
    | none => (rest, "")
  let (path, params) := splitParams rest
  { scheme := scheme, netloc := netloc, path := path,
    params := params, query := query, fragment := fragment }

/-! ### url_utils (embedding `sp_recovery/url_utils.py`) -/

def DEFAULT_CANONICAL_SITE_HOST : String := "somethingpositive.net"

def DEFAULT_EQUIVALENT_SITE_HOSTS : List String :=
  ["somethingpositive.net", "www.somethingpositive.net"]

/-- `normalize_site_host`: lowercase and strip, drop userinfo, drop an
explicit default port (80/443), drop trailing dots. -/
def normalize_site_host (netloc : String) : String :=
  let host := strStrip (strLower netloc)
  let host := match rsplitLast '@' host with
    | some (_, r) => r
    | none => host
  let candidate := match rsplitLast ':' host with
    | some (l, r) => if allDigits r && (r = "80" || r = "443") then l else host
    | none => host
  rstripDots candidate

/-- `_normalized_equivalent_hosts`: the set (here: list, used only through
membership) of normalized equivalent hosts, always including the normalized
canonical host. -/
def normalized_equivalent_hosts (canonical_host : String)
    (equivalent_hosts : List String) : List String :=
  let normalized := (equivalent_hosts.map normalize_site_host).filter
    (fun h => !(strIsEmpty h))
  let nc := normalize_site_host canonical_host
  if strIsEmpty nc then normalized else normalized ++ [nc]

/-- `canonicalize_site_host`: map any member of the equivalence set to the
canonical host; pass every other host through normalized. -/
def canonicalize_site_host (netloc : String)
    (canonical_host : String := DEFAULT_CANONICAL_SITE_HOST)
    (equivalent_hosts : List String := DEFAULT_EQUIVALENT_SITE_HOSTS) : String :=
  let observed := normalize_site_host netloc
  let nc0 := normalize_site_host canonical_host
  let nc := if strIsEmpty nc0 then observed else nc0
  let equivalents := normalized_equivalent_hosts nc equivalent_hosts
  if equivalents.contains observed && !(strIsEmpty nc) then nc else observed

/-- `is_internal_site_netloc`: membership of the normalized host in the
equivalence set. -/
def is_internal_site_netloc (netloc : String)
    (canonical_host : String := DEFAULT_CANONICAL_SITE_HOST)
    (equivalent_hosts : List String := DEFAULT_EQUIVALENT_SITE_HOSTS) : Bool :=
  (normalized_equivalent_hosts canonical_host equivalent_hosts).contains
    (normalize_site_host netloc)

/-- `canonical_identity_key`: `"{canonicalizedHost}{path}{?query}"`, path
defaulting to `/`, fragment never included. -/
def canonical_identity_key (original_url : String)
    (canonical_host : String := DEFAULT_CANONICAL_SITE_HOST)
    (equivalent_hosts : List String := DEFAULT_EQUIVALENT_SITE_HOSTS) : String :=
  let parsed := urlparse original_url
  let host := canonicalize_site_host parsed.netloc canonical_host equivalent_hosts
  let path := if strIsEmpty parsed.path then "/" else parsed.path
  let query := if strIsEmpty parsed.query then "" else "?" ++ parsed.query
  host ++ path ++ query

/-- `_strip_mirror_host_prefix` (source name): collapse a leading path
segment that itself names an equivalent host. -/
def strip_mirror_host_seg (path : String) (equivalent_hosts : List String) : String :=
  if !(strStarts path "/") then path
  else
    let head := strDrop path 1
    let firstSegment : String := ⟨head.data.takeWhile (fun c => c ≠ '/')⟩
    let remainder : String := ⟨(head.data.dropWhile (fun c => c ≠ '/')).drop 1⟩
    let hadSlash := (head.data.dropWhile (fun c => c ≠ '/')) ≠ []
    if strIsEmpty firstSegment then path
    else
      let normalizedSegment := normalize_site_host firstSegment
      if !(strIsEmpty normalizedSegment) && equivalent_hosts.contains normalizedSegment then
        if hadSlash && !(strIsEmpty remainder) then "/" ++ remainder
        else if hadSlash && strIsEmpty remainder then "/"
        else "/"
      else path

/-- `canonical_internal_url`: rewrite onto the canonical host, stripping a
legacy mirror-host path segment. -/
def canonical_internal_url (original_url : String)
    (canonical_host : String := DEFAULT_CANONICAL_SITE_HOST)
    (equivalent_hosts : List String := DEFAULT_EQUIVALENT_SITE_HOSTS) : String :=
  let parsed := urlparse original_url
  let nc0 := normalize_site_host canonical_host
  let nc := if strIsEmpty nc0 then DEFAULT_CANONICAL_SITE_HOST else nc0
  let path0 := if strIsEmpty parsed.path then "/" else parsed.path
  let normalizedEquivalents := normalized_equivalent_hosts nc equivalent_hosts
  let path := strip_mirror_host_seg path0 normalizedEquivalents
  "http://" ++ nc ++ path

/-- `default_equivalent_hosts` (from `config.py`): bare and `www.`-prefixed
variants of the canonical domain. -/
def default_equivalent_hosts (canonical_host : String) : List String :=
  let normalized := normalize_site_host canonical_host
  if strIsEmpty normalized then []
  else if strStarts normalized "www." then [normalized, strDrop normalized 4]
  else [normalized, "www." ++ normalized]

/-! ### Claim C8 -/

/-- C8: host canonicalization maps every member of the configured
equivalent-host set to the one canonical form: with canonical host
`example.org` and its default equivalence set, the netlocs
`www.example.org`, `example.org:80` and `EXAMPLE.ORG.` all yield the same
identity-key host, and the identity-key relation induced by
`canonicalize_site_host` is an equivalence relation. -/
theorem c8_host_canonicalization_equivalence :
    (canonicalize_site_host "www.example.org" "example.org"
        (default_equivalent_hosts "example.org") = "example.org"
      ∧ canonicalize_site_host "example.org:80" "example.org"
        (default_equivalent_hosts "example.org") = "example.org"
      ∧ canonicalize_site_host "EXAMPLE.ORG." "example.org"
        (default_equivalent_hosts "example.org") = "example.org")
    ∧ ∀ ch eh, Equivalence (fun a b : String =>
        canonicalize_site_host a ch eh = canonicalize_site_host b ch eh) := by
  refine ⟨⟨by decide, by decide, by decide⟩, ?_⟩
  intro ch eh
  exact ⟨fun _ => rfl, fun h => h.symm, fun h1 h2 => h1.trans h2⟩

/-! ### Capture records and canonical selection
(embedding `sp_recovery/discovery.py`) -/

structure CaptureRecord where
  timestamp : String
  original : String
  mimetype : String
  statuscode : Int
  digest : Option String := none
deriving DecidableEq

/-- Embedding of Python `int(...)` on decimal strings (optional sign, all
digits); other strings — on which CPython would raise — are sent to `0`. -/
def digitsToNat (cs : List Char) : Nat :=
  cs.foldl (fun a c => a * 10 + (c.toNat - 48)) 0

def pyInt (s : String) : Int :=
  match s.data with
  | '-' :: rest =>
      if !rest.isEmpty && rest.all Char.isDigit then -(digitsToNat rest : Int) else 0
  | l => if !l.isEmpty && l.all Char.isDigit then (digitsToNat l : Int) else 0

/-- Python string comparison (lexicographic on code points), as `<`. -/
def charsLt : List Char → List Char → Bool
  | [], [] => false
  | [], _ :: _ => true
  | _ :: _, [] => false
  | a :: as, b :: bs => if a < b then true else if b < a then false else charsLt as bs

def strLtb (a b : String) : Bool := charsLt a.data b.data

def strLeb (a b : String) : Bool := !(strLtb b a)

def DEFAULT_PREFERRED_WINDOWS : List (String × String) :=
  [("20230101000000", "20250201235959"), ("20210101000000", "20250201235959")]

/-- `_window_rank`: index of the first preferred window containing the
timestamp, or the number of windows when none does. -/
def window_rank (timestamp : String) : List (String × String) → Nat
  | [] => 0
  | (s, e) :: rest =>
      if strLeb s timestamp && strLeb timestamp e then 0
      else 1 + window_rank timestamp rest

/-- `_mimetype_rank`: renderable primary content ranks 0, the rest 1. -/
def mimetype_rank (mimetype : String) : Nat :=
  if mimetype = "text/html" || strStarts mimetype "image/" then 0 else 1

/-- The composite rank tuple `(statusRank, mimeRank, windowRank, recencyRank)`
from `choose_canonical_capture`. -/
def captureRank (preferred_windows : List (String × String))
    (record : CaptureRecord) : Nat × Nat × Nat × Int :=
  ((if record.statuscode = 200 then 0 else 1),
   mimetype_rank record.mimetype,
   window_rank record.timestamp preferred_windows,
   -(pyInt record.timestamp))

/-- Strict lexicographic comparison of rank tuples (Python tuple `<`). -/
def rankLtb (a b : Nat × Nat × Nat × Int) : Bool :=
  if a.1 < b.1 then true else if b.1 < a.1 then false
  else if a.2.1 < b.2.1 then true else if b.2.1 < a.2.1 then false
  else if a.2.2.1 < b.2.2.1 then true else if b.2.2.1 < a.2.2.1 then false
  else a.2.2.2 < b.2.2.2

/-- Python `min(xs, key=...)` as the left fold that keeps the current best
and replaces it only on a strictly smaller key: ties go to the earlier
element in encounter order. -/
def pyMinBy (lt : α → α → Bool) : List α → Option α
  | [] => none
  | x :: xs => some (xs.foldl (fun best y => if lt y best then y else best) x)

/-- `choose_canonical_capture`: minimum of the rank tuple, `none` on the
empty group. -/
def choose_canonical_capture (captures : List CaptureRecord)
    (preferred_windows : List (String × String) := DEFAULT_PREFERRED_WINDOWS) :
    Option CaptureRecord :=
  pyMinBy
    (fun a b => rankLtb (captureRank preferred_windows a) (captureRank preferred_windows b))
    captures

/-! Order facts about `rankLtb`, used for the selection lemmas. -/

theorem rankLtb_iff (a b : Nat × Nat × Nat × Int) :
    rankLtb a b = true ↔
      a.1 < b.1 ∨ (a.1 = b.1 ∧ (a.2.1 < b.2.1 ∨ (a.2.1 = b.2.1 ∧
        (a.2.2.1 < b.2.2.1 ∨ (a.2.2.1 = b.2.2.1 ∧ a.2.2.2 < b.2.2.2))))) := by
  unfold rankLtb
  split_ifs <;> simp_all <;> omega

theorem rankLtb_irrefl (a : Nat × Nat × Nat × Int) : rankLtb a a = false := by
  have h := rankLtb_iff a a
  cases hb : rankLtb a a
  · rfl
  · exact absurd (h.mp hb) (by omega)

theorem rankLtb_asymm {a b : Nat × Nat × Nat × Int}
    (h : rankLtb a b = true) : rankLtb b a = false := by
  have hab := (rankLtb_iff a b).mp h
  cases hb : rankLtb b a
  · rfl
  · exact absurd ((rankLtb_iff b a).mp hb) (by omega)

theorem rankLtb_neg_trans {a b c : Nat × Nat × Nat × Int}
    (hab : rankLtb a b = false) (hbc : rankLtb b c = false) :
    rankLtb a c = false := by
  cases hac : rankLtb a c
  · rfl
  · have h1 := (rankLtb_iff a c).mp hac
    have h2 : ¬ (rankLtb a b = true) := by simp [hab]
    have h3 : ¬ (rankLtb b c = true) := by simp [hbc]
    rw [rankLtb_iff] at h2 h3
    exact absurd h1 (by omega)

theorem rankLtb_connex {a b : Nat × Nat × Nat × Int}
    (hab : rankLtb a b = false) (hba : rankLtb b a = false) : a = b := by
  have h1 : ¬ (rankLtb a b = true) := by simp [hab]
  have h2 : ¬ (rankLtb b a = true) := by simp [hba]
  rw [rankLtb_iff] at h1 h2
  obtain ⟨a1, a2, a3, a4⟩ := a
  obtain ⟨b1, b2, b3, b4⟩ := b
  simp only at h1 h2 ⊢
  have : a1 = b1 ∧ a2 = b2 ∧ a3 = b3 ∧ a4 = b4 := by omega
  simp [this.1, this.2.1, this.2.2.1, this.2.2.2]

/-! Generic facts about `pyMinBy`. -/

theorem pyMinBy_foldl_spec (lt : α → α → Bool)
    (hirr : ∀ a, lt a a = false)
    (hasymm : ∀ {a b}, lt a b = true → lt b a = false)
    (hnt : ∀ {a b c}, lt a b = false → lt b c = false → lt a c = false) :
    ∀ (xs : List α) (x : α),
      (xs.foldl (fun best y => if lt y best then y else best) x) ∈ x :: xs ∧
      ∀ z ∈ x :: xs,
        lt z (xs.foldl (fun best y => if lt y best then y else best) x) = false := by
  intro xs
  induction xs with
  | nil =>
      intro x
      refine ⟨List.mem_singleton.mpr rfl, ?_⟩
      intro z hz
      rw [List.mem_singleton] at hz
      subst hz
      simpa using hirr z
  | cons y ys ih =>
      intro x
      simp only [List.foldl_cons]
      by_cases hyx : lt y x = true
      · rw [if_pos hyx]
        obtain ⟨hmem, hmin⟩ := ih y
        constructor
        · rcases List.mem_cons.mp hmem with h | h
          · rw [h]
            exact List.mem_cons_of_mem _ (List.mem_cons_self _ _)
          · exact List.mem_cons_of_mem _ (List.mem_cons_of_mem _ h)
        · intro z hz
          rcases List.mem_cons.mp hz with h | h
          · subst h
            have hxy : lt z y = false := hasymm hyx
            exact hnt hxy (hmin y (List.mem_cons_self _ _))
          · exact hmin z h
      · rw [if_neg hyx]
        have hyx' : lt y x = false := by
          cases hv : lt y x
          · rfl
          · exact absurd hv hyx
        obtain ⟨hmem, hmin⟩ := ih x
        constructor
        · rcases List.mem_cons.mp hmem with h | h
          · rw [h]
            exact List.mem_cons_self _ _
          · exact List.mem_cons_of_mem _ (List.mem_cons_of_mem _ h)
        · intro z hz
          rcases List.mem_cons.mp hz with h | h
          · subst h
            exact hmin z (List.mem_cons_self _ _)
          · rcases List.mem_cons.mp h with h' | h'
            · subst h'
              exact hnt hyx' (hmin x (List.mem_cons_self _ _))
            · exact hmin z (List.mem_cons_of_mem _ h')

theorem pyMinBy_spec (lt : α → α → Bool)
    (hirr : ∀ a, lt a a = false)
    (hasymm : ∀ {a b}, lt a b = true → lt b a = false)
    (hnt : ∀ {a b c}, lt a b = false → lt b c = false → lt a c = false)
    {l : List α} {m : α} (h : pyMinBy lt l = some m) :
    m ∈ l ∧ ∀ z ∈ l, lt z m = false := by
  match l, h with
  | x :: xs, h =>
      have hspec := pyMinBy_foldl_spec lt hirr hasymm hnt xs x
      have hm : xs.foldl (fun best y => if lt y best then y else best) x = m := by
        simpa [pyMinBy] using h
      rw [hm] at hspec
      exact hspec

/-! ### Claims C1 and C6 -/

/-- C1 counterexample: two distinct captures sharing an identity key and the
whole rank tuple — `choose_canonical_capture` then picks the first in
encounter order, so swapping the input order changes the selected record,
refuting order-independence as claimed. -/
theorem c1_counterexample_order_dependence :
    canonical_identity_key "http://somethingpositive.net/x.html"
        DEFAULT_CANONICAL_SITE_HOST DEFAULT_EQUIVALENT_SITE_HOSTS
      = canonical_identity_key "http://www.somethingpositive.net/x.html"
        DEFAULT_CANONICAL_SITE_HOST DEFAULT_EQUIVALENT_SITE_HOSTS
    ∧ captureRank DEFAULT_PREFERRED_WINDOWS
        ⟨"20240101120000", "http://somethingpositive.net/x.html", "text/html", 200, some "A"⟩
      = captureRank DEFAULT_PREFERRED_WINDOWS
        ⟨"20240101120000", "http://www.somethingpositive.net/x.html", "text/html", 200, some "B"⟩
    ∧ List.Perm
        [(⟨"20240101120000", "http://somethingpositive.net/x.html", "text/html", 200, some "A"⟩ : CaptureRecord),
         ⟨"20240101120000", "http://www.somethingpositive.net/x.html", "text/html", 200, some "B"⟩]
        [⟨"20240101120000", "http://www.somethingpositive.net/x.html", "text/html", 200, some "B"⟩,
         ⟨"20240101120000", "http://somethingpositive.net/x.html", "text/html", 200, some "A"⟩]
    ∧ choose_canonical_capture
        [⟨"20240101120000", "http://somethingpositive.net/x.html", "text/html", 200, some "A"⟩,
         ⟨"20240101120000", "http://www.somethingpositive.net/x.html", "text/html", 200, some "B"⟩]
        DEFAULT_PREFERRED_WINDOWS
      ≠ choose_canonical_capture
        [⟨"20240101120000", "http://www.somethingpositive.net/x.html", "text/html", 200, some "B"⟩,
         ⟨"20240101120000", "http://somethingpositive.net/x.html", "text/html", 200, some "A"⟩]
        DEFAULT_PREFERRED_WINDOWS := by
  exact ⟨by decide, by decide, List.Perm.swap _ _ _, by decide⟩

/-- C1 (amended): canonical selection is order-independent whenever no two
distinct captures of the group share the same rank tuple; ties in the full
rank tuple are broken by encounter order. -/
theorem c1_choose_canonical_order_independent
    (l l' : List CaptureRecord) (pw : List (String × String))
    (hperm : l.Perm l')
    (hinj : ∀ a ∈ l, ∀ b ∈ l, captureRank pw a = captureRank pw b → a = b) :
    choose_canonical_capture l pw = choose_canonical_capture l' pw := by
  classical
  set lt : CaptureRecord → CaptureRecord → Bool :=
    fun a b => rankLtb (captureRank pw a) (captureRank pw b) with hlt
  have hirr : ∀ a, lt a a = false := fun a => rankLtb_irrefl _
  have hasymm : ∀ {a b}, lt a b = true → lt b a = false := fun h => rankLtb_asymm h
  have hnt : ∀ {a b c}, lt a b = false → lt b c = false → lt a c = false :=
    fun h1 h2 => rankLtb_neg_trans h1 h2
  cases l with
  | nil =>
      have : l' = [] := hperm.nil_eq.symm ▸ rfl
      rw [List.Perm.nil_eq hperm]
  | cons x xs =>
      have hne' : l' ≠ [] := by
        intro h
        rw [h] at hperm
        exact absurd hperm.symm.nil_eq (by simp)
      obtain ⟨y, ys, rfl⟩ : ∃ y ys, l' = y :: ys := by
        cases l' with
        | nil => exact absurd rfl hne'
        | cons y ys => exact ⟨y, ys, rfl⟩
      obtain ⟨m, hm⟩ : ∃ m, choose_canonical_capture (x :: xs) pw = some m :=
        ⟨_, rfl⟩
      obtain ⟨m', hm'⟩ : ∃ m', choose_canonical_capture (y :: ys) pw = some m' :=
        ⟨_, rfl⟩
      have hs := pyMinBy_spec lt hirr hasymm hnt (l := x :: xs) (m := m) hm
      have hs' := pyMinBy_spec lt hirr hasymm hnt (l := y :: ys) (m := m') hm'
      have hmem' : m' ∈ x :: xs := hperm.mem_iff.mpr hs'.1
      have hmem : m ∈ y :: ys := hperm.mem_iff.mp hs.1
      have h1 : lt m' m = false := hs.2 m' hmem'
      have h2 : lt m m' = false := hs'.2 m hmem
      have : captureRank pw m = captureRank pw m' := rankLtb_connex h2 h1
      have : m = m' := hinj m hs.1 m' hmem' this
      rw [hm, hm', this]

/-- C1 witness: a two-element group with distinct rank tuples selects the
same record in either order. -/
theorem c1_order_independent_witness :
    choose_canonical_capture
      [(⟨"20240101120000", "http://somethingpositive.net/a.html", "text/html", 200, some "A"⟩ : CaptureRecord),
       ⟨"20230601120000", "http://www.somethingpositive.net/a.html", "text/html", 200, some "B"⟩]
      DEFAULT_PREFERRED_WINDOWS
    = choose_canonical_capture
      [⟨"20230601120000", "http://www.somethingpositive.net/a.html", "text/html", 200, some "B"⟩,
       ⟨"20240101120000", "http://somethingpositive.net/a.html", "text/html", 200, some "A"⟩]
      DEFAULT_PREFERRED_WINDOWS :=
  c1_choose_canonical_order_independent _ _ _ (List.Perm.swap _ _ _) (by decide)

/-- C6: in any group containing a 200-status capture and a non-200 capture,
`choose_canonical_capture` selects a capture whose statuscode is 200,
whatever the timestamps, mimetypes or preferred windows involved. -/
theorem c6_choose_canonical_prefers_200
    (l : List CaptureRecord) (pw : List (String × String))
    (r200 rOther : CaptureRecord)
    (h200mem : r200 ∈ l) (h200 : r200.statuscode = 200)
    (hOmem : rOther ∈ l) (_hO : rOther.statuscode ≠ 200) :
    ∃ m, choose_canonical_capture l pw = some m ∧ m.statuscode = 200 := by
  classical
  set lt : CaptureRecord → CaptureRecord → Bool :=
    fun a b => rankLtb (captureRank pw a) (captureRank pw b) with hlt
  cases l with
  | nil => exact absurd h200mem (List.not_mem_nil _)
  | cons x xs =>
      obtain ⟨m, hm⟩ : ∃ m, choose_canonical_capture (x :: xs) pw = some m :=
        ⟨_, rfl⟩
      have hs := pyMinBy_spec lt (fun a => rankLtb_irrefl _)
        (fun h => rankLtb_asymm h) (fun h1 h2 => rankLtb_neg_trans h1 h2)
        (l := x :: xs) (m := m) hm
      have hmin : lt r200 m = false := hs.2 r200 h200mem
      refine ⟨m, hm, ?_⟩
      by_contra hne
      have hfirst : (captureRank pw r200).1 = 0 := by
        simp [captureRank, h200]
      have hmfirst : (captureRank pw m).1 = 1 := by
        simp [captureRank, hne]
      have : lt r200 m = true := by
        rw [hlt]
        exact (rankLtb_iff _ _).mpr (Or.inl (by omega))
      rw [this] at hmin
      exact absurd hmin (by simp)

/-- C6 witness: a concrete group with a newer 500 capture and an older 200
capture selects the 200 capture. -/
theorem c6_prefers_200_witness :
    ∃ m, choose_canonical_capture
      [(⟨"20240101120000", "http://somethingpositive.net/b.html", "text/html", 500, some "A"⟩ : CaptureRecord),
       ⟨"20231231120000", "http://somethingpositive.net/b.html", "text/html", 200, some "B"⟩]
      DEFAULT_PREFERRED_WINDOWS = some m ∧ m.statuscode = 200 :=
  c6_choose_canonical_prefers_200 _ DEFAULT_PREFERRED_WINDOWS
    ⟨"20231231120000", "http://somethingpositive.net/b.html", "text/html", 200, some "B"⟩
    ⟨"20240101120000", "http://somethingpositive.net/b.html", "text/html", 500, some "A"⟩
    (by decide) rfl (by decide) (by decide)

/-! ### Recovery scheduling (embedding `sp_recovery/pipeline.py`)

`_recovery_order_key` classifies canonical URLs into priority buckets and
sub-orders by embedded date, raw timestamp, then URL string.  Python's
`sorted` (a stable sort by `<` on key tuples) is embedded as `mergeSort`
with the non-strict comparison `¬ key b < key a`. -/

/-- Strict lexicographic combination of two strict comparisons. -/
def lexLtb (ltA : α → α → Bool) (ltB : β → β → Bool) (x y : α × β) : Bool :=
  if ltA x.1 y.1 then true
  else if ltA y.1 x.1 then false
  else ltB x.2 y.2

theorem lexLtb_irrefl (ltA : α → α → Bool) (ltB : β → β → Bool)
    (hA : ∀ a, ltA a a = false) (hB : ∀ b, ltB b b = false) (p : α × β) :
    lexLtb ltA ltB p p = false := by
  simp [lexLtb, hA, hB]

theorem lexLtb_asymm (ltA : α → α → Bool) (ltB : β → β → Bool)
    (hA : ∀ a b, ltA a b = true → ltA b a = false)
    (hB : ∀ a b, ltB a b = true → ltB b a = false)
    (p q : α × β) (h : lexLtb ltA ltB p q = true) : lexLtb ltA ltB q p = false := by
  unfold lexLtb at h ⊢
  by_cases h1 : ltA p.1 q.1 = true
  · rw [if_neg, if_pos h1]
    rw [hA _ _ h1]
    simp
  · rw [if_neg h1] at h
    by_cases h2 : ltA q.1 p.1 = true
    · rw [if_pos h2] at h
      exact absurd h (by simp)
    · rw [if_neg h2] at h
      rw [if_neg h2, if_neg h1]
      exact hB _ _ h

theorem lexLtb_trans (ltA : α → α → Bool) (ltB : β → β → Bool)
    (hAtrans : ∀ a b c, ltA a b = true → ltA b c = true → ltA a c = true)
    (hAconn : ∀ a b, ltA a b = false → ltA b a = false → a = b)
    (hBtrans : ∀ a b c, ltB a b = true → ltB b c = true → ltB a c = true)
    (p q r : α × β) (h1 : lexLtb ltA ltB p q = true)
    (h2 : lexLtb ltA ltB q r = true) : lexLtb ltA ltB p r = true := by
  unfold lexLtb at h1 h2 ⊢
  by_cases hpq : ltA p.1 q.1 = true
  · by_cases hqr : ltA q.1 r.1 = true
    · rw [if_pos (hAtrans _ _ _ hpq hqr)]
    · rw [if_neg hqr] at h2
      by_cases hrq : ltA r.1 q.1 = true
      · rw [if_pos hrq] at h2
        exact absurd h2 (by simp)
      · have : q.1 = r.1 := hAconn _ _ (by simpa using hqr) (by simpa using hrq)
        rw [if_pos (this ▸ hpq)]
  · rw [if_neg hpq] at h1
    by_cases hqp : ltA q.1 p.1 = true
    · rw [if_pos hqp] at h1
      exact absurd h1 (by simp)
    · rw [if_neg hqp] at h1
      have hpq1 : p.1 = q.1 := hAconn _ _ (by simpa using hpq) (by simpa using hqp)
      by_cases hqr : ltA q.1 r.1 = true
      · rw [if_pos (hpq1 ▸ hqr)]
      · rw [if_neg hqr] at h2
        by_cases hrq : ltA r.1 q.1 = true
        · rw [if_pos hrq] at h2
          exact absurd h2 (by simp)
        · rw [if_neg hrq] at h2
          have hqr' : ltA q.1 r.1 = false := by simpa using hqr
          have hrq' : ltA r.1 q.1 = false := by simpa using hrq
          have h3 : ltA p.1 r.1 = false := by rw [hpq1]; exact hqr'
          have h4 : ltA r.1 p.1 = false := by rw [hpq1]; exact hrq'
          rw [if_neg (by simp [h3]), if_neg (by simp [h4])]
          exact hBtrans _ _ _ h1 h2

theorem lexLtb_connex (ltA : α → α → Bool) (ltB : β → β → Bool)
    (hAconn : ∀ a b, ltA a b = false → ltA b a = false → a = b)
    (hBconn : ∀ a b, ltB a b = false → ltB b a = false → a = b)
    (p q : α × β) (h1 : lexLtb ltA ltB p q = false)
    (h2 : lexLtb ltA ltB q p = false) : p = q := by
  unfold lexLtb at h1 h2
  by_cases hpq : ltA p.1 q.1 = true
  · rw [if_pos hpq] at h1
    exact absurd h1 (by simp)
  · rw [if_neg hpq] at h1
    by_cases hqp : ltA q.1 p.1 = true
    · rw [if_pos hqp] at h2
      exact absurd h2 (by simp)
    · rw [if_neg hqp] at h1
      rw [if_neg hqp, if_neg hpq] at h2
      have ha : p.1 = q.1 := hAconn _ _ (by simpa using hpq) (by simpa using hqp)
      have hb : p.2 = q.2 := hBconn _ _ h1 h2
      exact Prod.ext ha hb

/-- Strict `<` on `Nat` as a `Bool`. -/
def natLtb (a b : Nat) : Bool := decide (a < b)

/-- Strict `<` on `Int` as a `Bool`. -/
def intLtb (a b : Int) : Bool := decide (a < b)

theorem natLtb_irrefl (a : Nat) : natLtb a a = false := by simp [natLtb]

theorem natLtb_asymm (a b : Nat) (h : natLtb a b = true) : natLtb b a = false := by
  simp [natLtb] at h ⊢; omega

theorem natLtb_trans (a b c : Nat) (h1 : natLtb a b = true) (h2 : natLtb b c = true) :
    natLtb a c = true := by
  simp [natLtb] at h1 h2 ⊢; omega

theorem natLtb_connex (a b : Nat) (h1 : natLtb a b = false) (h2 : natLtb b a = false) :
    a = b := by
  simp [natLtb] at h1 h2; omega

theorem intLtb_irrefl (a : Int) : intLtb a a = false := by simp [intLtb]

theorem intLtb_asymm (a b : Int) (h : intLtb a b = true) : intLtb b a = false := by
  simp [intLtb] at h ⊢; omega

theorem intLtb_trans (a b c : Int) (h1 : intLtb a b = true) (h2 : intLtb b c = true) :
    intLtb a c = true := by
  simp [intLtb] at h1 h2 ⊢; omega

theorem intLtb_connex (a b : Int) (h1 : intLtb a b = false) (h2 : intLtb b a = false) :
    a = b := by
  simp [intLtb] at h1 h2; omega

theorem charsLt_irrefl : ∀ l : List Char, charsLt l l = false
  | [] => rfl
  | c :: cs => by
      simp only [charsLt, lt_irrefl, if_false]
      exact charsLt_irrefl cs

theorem charsLt_asymm : ∀ (a b : List Char), charsLt a b = true → charsLt b a = false
  | [], [], h => by simp [charsLt] at h
  | [], _ :: _, _ => by simp [charsLt]
  | _ :: _, [], h => by simp [charsLt] at h
  | x :: xs, y :: ys, h => by
      unfold charsLt at h ⊢
      by_cases hxy : x < y
      · rw [if_neg (lt_asymm hxy), if_pos hxy]
      · rw [if_neg hxy] at h
        by_cases hyx : y < x
        · rw [if_pos hyx] at h
          exact absurd h (by simp)
        · rw [if_neg hyx] at h
          rw [if_neg hyx, if_neg hxy]
          exact charsLt_asymm xs ys h

theorem charsLt_trans : ∀ (a b c : List Char),
    charsLt a b = true → charsLt b c = true → charsLt a c = true
  | [], [], _, h1, _ => by simp [charsLt] at h1
  | [], _ :: _, [], _, h2 => by simp [charsLt] at h2
  | [], _ :: _, _ :: _, _, _ => by simp [charsLt]
  | _ :: _, [], _, h1, _ => by simp [charsLt] at h1
  | _ :: _, _ :: _, [], _, h2 => by simp [charsLt] at h2
  | x :: xs, y :: ys, z :: zs, h1, h2 => by
      unfold charsLt at h1 h2 ⊢
      by_cases hxy : x < y
      · by_cases hyz : y < z
        · rw [if_pos (lt_trans hxy hyz)]
        · rw [if_neg hyz] at h2
          by_cases hzy : z < y
          · rw [if_pos hzy] at h2
            exact absurd h2 (by simp)
          · have : y = z := le_antisymm (le_of_not_lt hzy) (le_of_not_lt hyz)
            rw [if_pos (this ▸ hxy)]
      · rw [if_neg hxy] at h1
        by_cases hyx : y < x
        · rw [if_pos hyx] at h1
          exact absurd h1 (by simp)
        · rw [if_neg hyx] at h1
          have hxy1 : x = y := le_antisymm (le_of_not_lt hyx) (le_of_not_lt hxy)
          by_cases hyz : y < z
          · rw [if_pos (hxy1 ▸ hyz)]
          · rw [if_neg hyz] at h2
            by_cases hzy : z < y
            · rw [if_pos hzy] at h2
              exact absurd h2 (by simp)
            · rw [if_neg hzy] at h2
              have hyz1 : y = z := le_antisymm (le_of_not_lt hzy) (le_of_not_lt hyz)
              rw [if_neg (by rw [hxy1, hyz1]; exact lt_irrefl z),
                if_neg (by rw [hxy1, hyz1]; exact lt_irrefl z)]
              exact charsLt_trans xs ys zs h1 h2

theorem charsLt_connex : ∀ (a b : List Char),
    charsLt a b = false → charsLt b a = false → a = b
  | [], [], _, _ => rfl
  | [], _ :: _, h1, _ => by simp [charsLt] at h1
  | _ :: _, [], _, h2 => by simp [charsLt] at h2
  | x :: xs, y :: ys, h1, h2 => by
      unfold charsLt at h1 h2
      by_cases hxy : x < y
      · rw [if_pos hxy] at h1
        exact absurd h1 (by simp)
      · by_cases hyx : y < x
        · rw [if_pos hyx] at h2
          exact absurd h2 (by simp)
        · rw [if_neg hxy, if_neg hyx] at h1
          rw [if_neg hyx, if_neg hxy] at h2
          have hhead : x = y := le_antisymm (le_of_not_lt hyx) (le_of_not_lt hxy)
          have htail : xs = ys := charsLt_connex xs ys h1 h2
          rw [hhead, htail]

theorem strLtb_irrefl (s : String) : strLtb s s = false := charsLt_irrefl _

theorem strLtb_asymm (a b : String) (h : strLtb a b = true) : strLtb b a = false :=
  charsLt_asymm _ _ h

theorem strLtb_trans (a b c : String) (h1 : strLtb a b = true)
    (h2 : strLtb b c = true) : strLtb a c = true :=
  charsLt_trans _ _ _ h1 h2

theorem strLtb_connex (a b : String) (h1 : strLtb a b = false)
    (h2 : strLtb b a = false) : a = b := by
  cases a with
  | mk da =>
      cases b with
      | mk db => exact congrArg String.mk (charsLt_connex _ _ h1 h2)

/-- Strict `<` on `(year, month, day)` date triples. -/
def dateLtb : Nat × Nat × Nat → Nat × Nat × Nat → Bool :=
  lexLtb natLtb (lexLtb natLtb natLtb)

theorem dateLtb_irrefl (d) : dateLtb d d = false :=
  lexLtb_irrefl _ _ natLtb_irrefl
    (lexLtb_irrefl _ _ natLtb_irrefl natLtb_irrefl) d

theorem dateLtb_asymm (a b) (h : dateLtb a b = true) : dateLtb b a = false :=
  lexLtb_asymm _ _ natLtb_asymm
    (lexLtb_asymm _ _ natLtb_asymm natLtb_asymm) a b h

theorem dateLtb_trans (a b c) (h1 : dateLtb a b = true) (h2 : dateLtb b c = true) :
    dateLtb a c = true :=
  lexLtb_trans _ _ natLtb_trans natLtb_connex
    (lexLtb_trans _ _ natLtb_trans natLtb_connex natLtb_trans) a b c h1 h2

theorem dateLtb_connex (a b) (h1 : dateLtb a b = false) (h2 : dateLtb b a = false) :
    a = b :=
  lexLtb_connex _ _ natLtb_connex
    (lexLtb_connex _ _ natLtb_connex natLtb_connex) a b h1 h2

/-- Strict `<` on `(timestamp, url)` tie-break pairs. -/
def tsUrlLtb : Int × String → Int × String → Bool :=
  lexLtb intLtb strLtb

theorem tsUrlLtb_irrefl (p) : tsUrlLtb p p = false :=
  lexLtb_irrefl _ _ intLtb_irrefl strLtb_irrefl p

theorem tsUrlLtb_asymm (a b) (h : tsUrlLtb a b = true) : tsUrlLtb b a = false :=
  lexLtb_asymm _ _ intLtb_asymm strLtb_asymm a b h

theorem tsUrlLtb_trans (a b c) (h1 : tsUrlLtb a b = true) (h2 : tsUrlLtb b c = true) :
    tsUrlLtb a c = true :=
  lexLtb_trans _ _ intLtb_trans intLtb_connex strLtb_trans a b c h1 h2

theorem tsUrlLtb_connex (a b) (h1 : tsUrlLtb a b = false) (h2 : tsUrlLtb b a = false) :
    a = b :=
  lexLtb_connex _ _ intLtb_connex strLtb_connex a b h1 h2

/-- Strict `<` on `((y, m, d), (timestamp, url))` suffix tuples. -/
def dateTsLtb : (Nat × Nat × Nat) × Int × String → (Nat × Nat × Nat) × Int × String → Bool :=
  lexLtb dateLtb tsUrlLtb

theorem dateTsLtb_irrefl (p) : dateTsLtb p p = false :=
  lexLtb_irrefl _ _ dateLtb_irrefl tsUrlLtb_irrefl p

theorem dateTsLtb_asymm (a b) (h : dateTsLtb a b = true) : dateTsLtb b a = false :=
  lexLtb_asymm _ _ dateLtb_asymm tsUrlLtb_asymm a b h

theorem dateTsLtb_trans (a b c) (h1 : dateTsLtb a b = true) (h2 : dateTsLtb b c = true) :
    dateTsLtb a c = true :=
  lexLtb_trans _ _ dateLtb_trans dateLtb_connex tsUrlLtb_trans a b c h1 h2

theorem dateTsLtb_connex (a b) (h1 : dateTsLtb a b = false) (h2 : dateTsLtb b a = false) :
    a = b :=
  lexLtb_connex _ _ dateLtb_connex tsUrlLtb_connex a b h1 h2

/-- `_STRIP_PAGE_RE`: `^/sp(\d\d)(\d\d)(\d\d\d\d)\.html$`, case-insensitive;
returns `(month, day, year)`. -/
def matchStripPage (path : String) : Option (Nat × Nat × Nat) :=
  match (strLower path).data with
  | '/' :: 's' :: 'p' :: m1 :: m2 :: d1 :: d2 :: y1 :: y2 :: y3 :: y4 ::
      '.' :: 'h' :: 't' :: 'm' :: 'l' :: [] =>
      if [m1, m2, d1, d2, y1, y2, y3, y4].all Char.isDigit then
        some (digitsToNat [m1, m2], digitsToNat [d1, d2], digitsToNat [y1, y2, y3, y4])
      else none
  | _ => none

/-- `_STRIP_ASSET_RE`: `^/arch/sp(\d\d)(\d\d)(\d\d\d\d)\.[A-Za-z0-9]+$`,
case-insensitive; returns `(month, day, year)`. -/
def matchStripAsset (path : String) : Option (Nat × Nat × Nat) :=
  match (strLower path).data with
  | '/' :: 'a' :: 'r' :: 'c' :: 'h' :: '/' :: 's' :: 'p' :: m1 :: m2 :: d1 :: d2 ::
      y1 :: y2 :: y3 :: y4 :: '.' :: rest =>
      if [m1, m2, d1, d2, y1, y2, y3, y4].all Char.isDigit
          && !rest.isEmpty && rest.all Char.isAlphanum then
        some (digitsToNat [m1, m2], digitsToNat [d1, d2], digitsToNat [y1, y2, y3, y4])
      else none
  | _ => none

/-- `_FIRST_COMIC_PAGE_RE`: `^/1stcomic-page(\d+)\.html$`, case-insensitive;
returns the page number. -/
def matchFirstComicPage (path : String) : Option Nat :=
  let l := (strLower path).data
  if ("/1stcomic-page".data).isPrefixOf l then
    let rest := l.drop 14
    let ds := rest.takeWhile Char.isDigit
    let tailChars := rest.dropWhile Char.isDigit
    if !ds.isEmpty && tailChars = ".html".data then some (digitsToNat ds) else none
  else none

/-- `_ARCHIVE_YEAR_RE`: `^/archive/(\d\d\d\d)/?$`, case-sensitive;
returns the year. -/
def matchArchiveYear (path : String) : Option Nat :=
  match path.data with
  | '/' :: 'a' :: 'r' :: 'c' :: 'h' :: 'i' :: 'v' :: 'e' :: '/' ::
      y1 :: y2 :: y3 :: y4 :: rest =>
      if [y1, y2, y3, y4].all Char.isDigit && (rest = [] || rest = ['/']) then
        some (digitsToNat [y1, y2, y3, y4])
      else none
  | _ => none

/-- The path component `_recovery_order_key` classifies: parsed path, with
`/` standing in for the empty path. -/
def effectivePath (record : CaptureRecord) : String :=
  let parsed := urlparse record.original
  if strIsEmpty parsed.path then "/" else parsed.path

/-- `_recovery_order_key`: `(bucket, (y, m, d) date triple, timestamp, URL)`. -/
def recovery_order_key (record : CaptureRecord) :
    Nat × (Nat × Nat × Nat) × Int × String :=
  let path := effectivePath record
  match matchStripPage path with
  | some (month, day, year) =>
      (0, (year, month, day), pyInt record.timestamp, record.original)
  | none =>
  match matchStripAsset path with
  | some (month, day, year) =>
      (1, (year, month, day), pyInt record.timestamp, record.original)
  | none =>
  match matchFirstComicPage path with
  | some page => (2, (2001, 1, page), pyInt record.timestamp, record.original)
  | none =>
  match matchArchiveYear path with
  | some year => (3, (year, 1, 1), pyInt record.timestamp, record.original)
  | none =>
  if path = "/" || path = "/index.html" then
    (6, (9999, 12, 31), pyInt record.timestamp, record.original)
  else if strEnds (strLower path) ".html" || strEnds path "/" then
    (4, (9999, 12, 31), pyInt record.timestamp, record.original)
  else
    (5, (9999, 12, 31), pyInt record.timestamp, record.original)

/-- Strict lexicographic `<` on order-key tuples (Python tuple comparison). -/
def orderKeyLtb : Nat × (Nat × Nat × Nat) × Int × String →
    Nat × (Nat × Nat × Nat) × Int × String → Bool :=
  lexLtb natLtb dateTsLtb

theorem orderKeyLtb_asymm (a b) (h : orderKeyLtb a b = true) :
    orderKeyLtb b a = false :=
  lexLtb_asymm _ _ natLtb_asymm dateTsLtb_asymm a b h

theorem orderKeyLtb_connex (a b) (h1 : orderKeyLtb a b = false)
    (h2 : orderKeyLtb b a = false) : a = b :=
  lexLtb_connex _ _ natLtb_connex dateTsLtb_connex a b h1 h2

theorem orderKeyLtb_trans (a b c) (h1 : orderKeyLtb a b = true)
    (h2 : orderKeyLtb b c = true) : orderKeyLtb a c = true :=
  lexLtb_trans _ _ natLtb_trans natLtb_connex dateTsLtb_trans a b c h1 h2

/-! Python's `sorted` is a stable ascending sort by `<` on keys.  It is
embedded as the stable insertion sort below (structurally recursive so that
concrete schedules evaluate inside the kernel): each element is inserted
after every already-placed element that is `le` it, which is exactly the
stable ascending order. -/

/-- Insert `x` after every element `y` of the (sorted) list with `le y x`. -/
def pySortedInsert (le : α → α → Bool) (x : α) : List α → List α
  | [] => [x]
  | y :: ys => if le y x then y :: pySortedInsert le x ys else x :: y :: ys

/-- Stable ascending sort: fold the input in order, inserting after ties. -/
def pySorted (le : α → α → Bool) (l : List α) : List α :=
  l.foldl (fun acc x => pySortedInsert le x acc) []

theorem mem_pySortedInsert (le : α → α → Bool) (x a : α) :
    ∀ l, a ∈ pySortedInsert le x l ↔ a = x ∨ a ∈ l := by
  intro l
  induction l with
  | nil => simp [pySortedInsert]
  | cons y ys ih =>
      unfold pySortedInsert
      by_cases h : le y x = true
      · rw [if_pos h]
        simp only [List.mem_cons, ih]
        tauto
      · rw [if_neg h]
        simp only [List.mem_cons]

theorem mem_pySorted (le : α → α → Bool) (a : α) (l : List α) :
    a ∈ pySorted le l ↔ a ∈ l := by
  have key : ∀ (l acc : List α),
      (a ∈ l.foldl (fun acc x => pySortedInsert le x acc) acc ↔ a ∈ l ∨ a ∈ acc) := by
    intro l
    induction l with
    | nil => simp
    | cons x xs ih =>
        intro acc
        simp only [List.foldl_cons]
        rw [ih]
        rw [mem_pySortedInsert]
        simp only [List.mem_cons]
        tauto
  unfold pySorted
  rw [key]
  simp

theorem sorted_pySortedInsert (le : α → α → Bool)
    (htotal : ∀ a b, le a b || le b a)
    (htrans : ∀ a b c, le a b = true → le b c = true → le a c = true) (x : α) :
    ∀ l, l.Pairwise (fun a b => le a b = true) →
      (pySortedInsert le x l).Pairwise (fun a b => le a b = true) := by
  intro l
  induction l with
  | nil =>
      intro _
      simp [pySortedInsert]
  | cons y ys ih =>
      intro hp
      rw [List.pairwise_cons] at hp
      unfold pySortedInsert
      by_cases h : le y x = true
      · rw [if_pos h]
        rw [List.pairwise_cons]
        constructor
        · intro b hb
          rw [mem_pySortedInsert] at hb
          rcases hb with rfl | hb
          · exact h
          · exact hp.1 b hb
        · exact ih hp.2
      · rw [if_neg h]
        have hxy : le x y = true := by
          have := htotal y x
          cases hyx : le y x
          · rw [hyx] at this
            simpa using this
          · exact absurd hyx h
        rw [List.pairwise_cons]
        refine ⟨?_, List.pairwise_cons.mpr hp⟩
        intro b hb
        rcases List.mem_cons.mp hb with rfl | hb
        · exact hxy
        · exact htrans x y b hxy (hp.1 b hb)

theorem sorted_pySorted (le : α → α → Bool)
    (htotal : ∀ a b, le a b || le b a)
    (htrans : ∀ a b c, le a b = true → le b c = true → le a c = true)
    (l : List α) : (pySorted le l).Pairwise (fun a b => le a b = true) := by
  have key : ∀ (l acc : List α), acc.Pairwise (fun a b => le a b = true) →
      (l.foldl (fun acc x => pySortedInsert le x acc) acc).Pairwise
        (fun a b => le a b = true) := by
    intro l
    induction l with
    | nil => intro acc h; simpa using h
    | cons x xs ih =>
        intro acc h
        simp only [List.foldl_cons]
        exact ih _ (sorted_pySortedInsert le htotal htrans x acc h)
  exact key l [] (by simp)

/-- Non-strict comparison on records used for the schedule sort: Python's
stable `sorted(..., key=_recovery_order_key)` sorts ascending under
`¬ key b < key a`. -/
def recoveryOrderLe (a b : CaptureRecord) : Bool :=
  !(orderKeyLtb (recovery_order_key b) (recovery_order_key a))

theorem orderKeyNotLt_trans (x y z : Nat × (Nat × Nat × Nat) × Int × String)
    (h1 : orderKeyLtb y x = false) (h2 : orderKeyLtb z y = false) :
    orderKeyLtb z x = false := by
  cases hzx : orderKeyLtb z x
  · rfl
  · cases hyz : orderKeyLtb y z
    · have heq : z = y := orderKeyLtb_connex _ _ h2 hyz
      rw [heq] at hzx
      rw [hzx] at h1
      exact h1
    · have := orderKeyLtb_trans _ _ _ hyz hzx
      rw [this] at h1
      exact h1

theorem recoveryOrderLe_trans (a b c : CaptureRecord)
    (h1 : recoveryOrderLe a b = true) (h2 : recoveryOrderLe b c = true) :
    recoveryOrderLe a c = true := by
  unfold recoveryOrderLe at h1 h2 ⊢
  simp only [Bool.not_eq_true', Bool.not_eq_false] at h1 h2 ⊢
  exact orderKeyNotLt_trans _ _ _ h1 h2

theorem recoveryOrderLe_total (a b : CaptureRecord) :
    recoveryOrderLe a b || recoveryOrderLe b a := by
  unfold recoveryOrderLe
  cases hab : orderKeyLtb (recovery_order_key b) (recovery_order_key a)
  · simp
  · have := orderKeyLtb_asymm _ _ hab
    simp [this]

/-- The schedule sort from `discover_phase` / `run_pipeline`:
`sorted(canonical_map.values(), key=_recovery_order_key)` — Python's stable
ascending sort under `¬ key b < key a`. -/
def sort_by_recovery_order (records : List CaptureRecord) : List CaptureRecord :=
  pySorted recoveryOrderLe records

/-! ### Claim C2 -/

/-- C2 counterexample: in the actual order key, site root / index pages get
bucket 6 — the last bucket — while other HTML-like paths get bucket 4 and
remaining assets bucket 5.  On a concrete canonical set the sorted fetch
sequence therefore puts the root page after both, refuting the claimed
root-first ordering. -/
theorem c2_counterexample_root_index_scheduled_last :
    (recovery_order_key
        ⟨"20180101120000", "http://somethingpositive.net/", "text/html", 200, none⟩).1 = 6
    ∧ (recovery_order_key
        ⟨"20180101120000", "http://somethingpositive.net/about.html", "text/html", 200, none⟩).1 = 4
    ∧ (recovery_order_key
        ⟨"20180101120000", "http://somethingpositive.net/logo.gif", "image/gif", 200, none⟩).1 = 5
    ∧ sort_by_recovery_order
        [⟨"20180101120000", "http://somethingpositive.net/", "text/html", 200, none⟩,
         ⟨"20180101120000", "http://somethingpositive.net/about.html", "text/html", 200, none⟩,
         ⟨"20180101120000", "http://somethingpositive.net/logo.gif", "image/gif", 200, none⟩]
      = [⟨"20180101120000", "http://somethingpositive.net/about.html", "text/html", 200, none⟩,
         ⟨"20180101120000", "http://somethingpositive.net/logo.gif", "image/gif", 200, none⟩,
         ⟨"20180101120000", "http://somethingpositive.net/", "text/html", 200, none⟩] := by
  refine ⟨by decide, by decide, by decide, by decide⟩

/-- C2 (amended): the schedule is sorted by ascending priority bucket, but
with the buckets the code actually assigns: outside the four special
pattern buckets 0–3, other HTML-like or directory-like paths get bucket 4
and are scheduled before all remaining assets (bucket 5), and site root /
index pages get bucket 6 and are scheduled last. -/
theorem c2_recovery_schedule_bucket_order :
    (∀ l, (sort_by_recovery_order l).Pairwise
        (fun a b => (recovery_order_key a).1 ≤ (recovery_order_key b).1))
    ∧ (∀ r : CaptureRecord,
        (effectivePath r = "/" ∨ effectivePath r = "/index.html") →
        (recovery_order_key r).1 = 6)
    ∧ (∀ r : CaptureRecord,
        matchStripPage (effectivePath r) = none →
        matchStripAsset (effectivePath r) = none →
        matchFirstComicPage (effectivePath r) = none →
        matchArchiveYear (effectivePath r) = none →
        ¬(effectivePath r = "/" ∨ effectivePath r = "/index.html") →
        (strEnds (strLower (effectivePath r)) ".html" || strEnds (effectivePath r) "/") = true →
        (recovery_order_key r).1 = 4)
    ∧ (∀ r : CaptureRecord,
        matchStripPage (effectivePath r) = none →
        matchStripAsset (effectivePath r) = none →
        matchFirstComicPage (effectivePath r) = none →
        matchArchiveYear (effectivePath r) = none →
        ¬(effectivePath r = "/" ∨ effectivePath r = "/index.html") →
        (strEnds (strLower (effectivePath r)) ".html" || strEnds (effectivePath r) "/") = false →
        (recovery_order_key r).1 = 5) := by
  refine ⟨?_, ?_, ?_, ?_⟩
  · intro l
    have hs := sorted_pySorted recoveryOrderLe recoveryOrderLe_total
      recoveryOrderLe_trans l
    refine hs.imp ?_
    intro a b hle
    by_contra hgt
    push_neg at hgt
    have hlt : orderKeyLtb (recovery_order_key b) (recovery_order_key a) = true := by
      unfold orderKeyLtb lexLtb
      rw [if_pos]
      simp only [natLtb, decide_eq_true_eq]
      exact hgt
    unfold recoveryOrderLe at hle
    rw [hlt] at hle
    exact absurd hle (by simp)
  · intro r hroot
    unfold recovery_order_key
    rcases hroot with h | h <;> rw [h] <;> rfl
  · intro r h1 h2 h3 h4 hroot hh
    simp only [recovery_order_key, h1, h2, h3, h4]
    rw [if_neg (by simpa using hroot), if_pos hh]
  · intro r h1 h2 h3 h4 hroot hh
    simp only [recovery_order_key, h1, h2, h3, h4]
    rw [if_neg (by simpa using hroot), if_neg (by simp [hh])]

/-- C2 witness: concrete bucket assignments and a concretely sorted
two-element schedule. -/
theorem c2_recovery_schedule_witness :
    (sort_by_recovery_order
        [⟨"20180101120000", "http://somethingpositive.net/", "text/html", 200, none⟩,
         ⟨"20180101120000", "http://somethingpositive.net/about.html", "text/html", 200, none⟩]).Pairwise
      (fun a b => (recovery_order_key a).1 ≤ (recovery_order_key b).1)
    ∧ (recovery_order_key
        (⟨"20180101120000", "http://somethingpositive.net/index.html", "text/html", 200, none⟩ : CaptureRecord)).1 = 6
    ∧ (recovery_order_key
        (⟨"20180101120000", "http://somethingpositive.net/news.html", "text/html", 200, none⟩ : CaptureRecord)).1 = 4
    ∧ (recovery_order_key
        (⟨"20180101120000", "http://somethingpositive.net/logo.gif", "image/gif", 200, none⟩ : CaptureRecord)).1 = 5 :=
  ⟨c2_recovery_schedule_bucket_order.1 _,
   c2_recovery_schedule_bucket_order.2.1 _ (by decide),
   c2_recovery_schedule_bucket_order.2.2.1 _ (by decide) (by decide) (by decide)
     (by decide) (by decide) (by decide),
   c2_recovery_schedule_bucket_order.2.2.2 _ (by decide) (by decide) (by decide)
     (by decide) (by decide) (by decide)⟩

/-! ### Canonical grouping and the pipeline's canonical-selection paths
(embedding `canonicalize_by_original_url`, `_record_in_window`,
`discover_phase` and the injected-records branch of `run_pipeline`) -/

/-- Append a capture to its identity-key group, preserving first-occurrence
group order and per-group insertion order (Python `dict.setdefault`). -/
def insertGrouped (groups : List (String × List CaptureRecord)) (k : String)
    (c : CaptureRecord) : List (String × List CaptureRecord) :=
  match groups with
  | [] => [(k, [c])]
  | (k', cs) :: rest =>
      if k' = k then (k', cs ++ [c]) :: rest
      else (k', cs) :: insertGrouped rest k c

def groupByIdentityKey (captures : List CaptureRecord)
    (canonical_host : String) (equivalent_hosts : List String) :
    List (String × List CaptureRecord) :=
  captures.foldl
    (fun acc c =>
      insertGrouped acc (canonical_identity_key c.original canonical_host equivalent_hosts) c)
    []

/-- `canonicalize_by_original_url`: group by identity key, then select one
canonical capture per group. -/
def canonicalize_by_original_url (captures : List CaptureRecord)
    (preferred_windows : List (String × String) := DEFAULT_PREFERRED_WINDOWS)
    (canonical_host : String := DEFAULT_CANONICAL_SITE_HOST)
    (equivalent_hosts : List String := DEFAULT_EQUIVALENT_SITE_HOSTS) :
    List (String × CaptureRecord) :=
  (groupByIdentityKey captures canonical_host equivalent_hosts).filterMap
    (fun g => (choose_canonical_capture g.2 preferred_windows).map (fun s => (g.1, s)))

/-- The run configuration fields the modeled pipeline paths read.  The
date-derived timestamp bounds are taken as the already-computed strings;
the `request_interval_seconds` sleep has no observable effect in the pure
model and is omitted. -/
structure RecoveryConfig where
  domain : String
  from_timestamp : String
  effective_to_timestamp : String
  output_root : String
  max_canonical : Int
  only_missing_urls : List String
  canonical_host : String := DEFAULT_CANONICAL_SITE_HOST
  equivalent_hosts : List String := DEFAULT_EQUIVALENT_SITE_HOSTS
deriving DecidableEq

/-- `_record_in_window`: reject URLs with a query or fragment, then test the
timestamp window. -/
def record_in_window (record : CaptureRecord) (config : RecoveryConfig) : Bool :=
  let parsed := urlparse record.original
  if !(strIsEmpty parsed.query) || !(strIsEmpty parsed.fragment) then false
  else
    strLeb config.from_timestamp record.timestamp
      && strLeb record.timestamp config.effective_to_timestamp

/-- The `only_missing_urls` / `max_canonical` post-processing shared by both
pipeline paths. -/
def restrictCanonical (canonical : List CaptureRecord) (config : RecoveryConfig) :
    List CaptureRecord :=
  let canonical :=
    if config.only_missing_urls ≠ [] then
      canonical.filter (fun r => config.only_missing_urls.contains r.original)
    else canonical
  if config.max_canonical > 0 then canonical.take config.max_canonical.toNat
  else canonical

/-- The canonical fetch sequence on the injected-records path of
`run_pipeline`: window/query/fragment filter, canonicalize, sort, restrict. -/
def injected_canonical (discovered_records : List CaptureRecord)
    (config : RecoveryConfig) : List CaptureRecord :=
  let discovered := discovered_records.filter (fun r => record_in_window r config)
  let canonical_map := canonicalize_by_original_url discovered
  restrictCanonical (sort_by_recovery_order (canonical_map.map Prod.snd)) config

/-- The canonical fetch sequence computed by `discover_phase` from the
records the CDX fetch returned: canonicalize, sort, restrict — with no
query/fragment or window filtering. -/
def discover_phase_canonical (discovered : List CaptureRecord)
    (config : RecoveryConfig) : List CaptureRecord :=
  let canonical_map := canonicalize_by_original_url discovered
  restrictCanonical (sort_by_recovery_order (canonical_map.map Prod.snd)) config

theorem insertGrouped_mem (k : String) (c x : CaptureRecord) :
    ∀ (gs : List (String × List CaptureRecord)) (g : String × List CaptureRecord),
      g ∈ insertGrouped gs k c → x ∈ g.2 → (∃ g' ∈ gs, x ∈ g'.2) ∨ x = c := by
  intro gs
  induction gs with
  | nil =>
      intro g hg hx
      simp only [insertGrouped, List.mem_singleton] at hg
      subst hg
      simp only [List.mem_singleton] at hx
      exact Or.inr hx
  | cons hd rest ih =>
      obtain ⟨k', cs⟩ := hd
      intro g hg hx
      unfold insertGrouped at hg
      by_cases hk : k' = k
      · rw [if_pos hk] at hg
        rcases List.mem_cons.mp hg with rfl | hg
        · simp only at hx
          rcases List.mem_append.mp hx with hx | hx
          · exact Or.inl ⟨(k', cs), List.mem_cons_self _ _, hx⟩
          · exact Or.inr (List.mem_singleton.mp hx)
        · exact Or.inl ⟨g, List.mem_cons_of_mem _ hg, hx⟩
      · rw [if_neg hk] at hg
        rcases List.mem_cons.mp hg with rfl | hg
        · exact Or.inl ⟨(k', cs), List.mem_cons_self _ _, hx⟩
        · rcases ih g hg hx with ⟨g', hg', hx'⟩ | h
          · exact Or.inl ⟨g', List.mem_cons_of_mem _ hg', hx'⟩
          · exact Or.inr h

theorem groupByIdentityKey_mem (captures : List CaptureRecord)
    (ch : String) (eh : List String) (g : String × List CaptureRecord)
    (x : CaptureRecord) (hg : g ∈ groupByIdentityKey captures ch eh)
    (hx : x ∈ g.2) : x ∈ captures := by
  have key : ∀ (l : List CaptureRecord) (acc : List (String × List CaptureRecord))
      (g : String × List CaptureRecord) (x : CaptureRecord),
      g ∈ l.foldl
        (fun acc c => insertGrouped acc (canonical_identity_key c.original ch eh) c) acc →
      x ∈ g.2 → (∃ g' ∈ acc, x ∈ g'.2) ∨ x ∈ l := by
    intro l
    induction l with
    | nil =>
        intro acc g x hg hx
        exact Or.inl ⟨g, hg, hx⟩
    | cons c cs ih =>
        intro acc g x hg hx
        simp only [List.foldl_cons] at hg
        rcases ih _ g x hg hx with ⟨g', hg', hx'⟩ | h
        · rcases insertGrouped_mem _ c x acc g' hg' hx' with ⟨g'', hg'', hx''⟩ | rfl
          · exact Or.inl ⟨g'', hg'', hx''⟩
          · exact Or.inr (List.mem_cons_self _ _)
        · exact Or.inr (List.mem_cons_of_mem _ h)
  rcases key captures [] g x hg hx with ⟨g', hg', _⟩ | h
  · exact absurd hg' (List.not_mem_nil _)
  · exact h

/-- A selected canonical capture is a member of its group. -/
theorem choose_canonical_capture_mem (l : List CaptureRecord)
    (pw : List (String × String)) (m : CaptureRecord)
    (h : choose_canonical_capture l pw = some m) : m ∈ l := by
  unfold choose_canonical_capture at h
  exact (pyMinBy_spec
    (fun a b => rankLtb (captureRank pw a) (captureRank pw b))
    (fun a => rankLtb_irrefl _) (fun h => rankLtb_asymm h)
    (fun h1 h2 => rankLtb_neg_trans h1 h2) h).1

/-- Every record in the canonical map came from the input captures. -/
theorem canonicalize_mem (captures : List CaptureRecord)
    (pw : List (String × String)) (ch : String) (eh : List String)
    (p : String × CaptureRecord)
    (hp : p ∈ canonicalize_by_original_url captures pw ch eh) : p.2 ∈ captures := by
  unfold canonicalize_by_original_url at hp
  rw [List.mem_filterMap] at hp
  obtain ⟨g, hg, hsel⟩ := hp
  cases hsel' : choose_canonical_capture g.2 pw with
  | none => rw [hsel', Option.map_none'] at hsel; exact absurd hsel (by simp)
  | some s =>
      rw [hsel', Option.map_some'] at hsel
      have hps : p.2 = s := by
        have := Option.some.inj hsel
        rw [← this]
      have hs := choose_canonical_capture_mem g.2 pw s hsel'
      rw [hps]
      exact groupByIdentityKey_mem captures ch eh g s hg hs

/-- Membership in the restricted schedule implies membership upstream. -/
theorem restrictCanonical_subset (canonical : List CaptureRecord)
    (config : RecoveryConfig) (r : CaptureRecord)
    (hr : r ∈ restrictCanonical canonical config) : r ∈ canonical := by
  unfold restrictCanonical at hr
  by_cases hcap : config.max_canonical > 0
  · rw [if_pos hcap] at hr
    have hr' := List.mem_of_mem_take hr
    by_cases hmiss : config.only_missing_urls ≠ []
    · rw [if_pos hmiss] at hr'
      exact (List.mem_filter.mp hr').1
    · rw [if_neg hmiss] at hr'
      exact hr'
  · rw [if_neg hcap] at hr
    by_cases hmiss : config.only_missing_urls ≠ []
    · rw [if_pos hmiss] at hr
      exact (List.mem_filter.mp hr).1
    · rw [if_neg hmiss] at hr
      exact hr

/-! ### Claim C4 -/

/-- C4 counterexample: a capture whose URL carries a query string flows
through the live-discovery path (`discover_phase` applies no query/fragment
filter after the CDX fetch) and appears in the canonical fetch sequence,
while the injected-records path does exclude it. -/
theorem c4_counterexample_query_url_survives_discovery_path :
    (urlparse "http://somethingpositive.net/?tracking=1").query = "tracking=1"
    ∧ discover_phase_canonical
        [⟨"20180101120000", "http://somethingpositive.net/?tracking=1", "text/html", 200, none⟩]
        ⟨"somethingpositive.net", "00000000000000", "99999999999999", "out", 0, [],
          DEFAULT_CANONICAL_SITE_HOST, DEFAULT_EQUIVALENT_SITE_HOSTS⟩
      = [⟨"20180101120000", "http://somethingpositive.net/?tracking=1", "text/html", 200, none⟩]
    ∧ injected_canonical
        [⟨"20180101120000", "http://somethingpositive.net/?tracking=1", "text/html", 200, none⟩]
        ⟨"somethingpositive.net", "00000000000000", "99999999999999", "out", 0, [],
          DEFAULT_CANONICAL_SITE_HOST, DEFAULT_EQUIVALENT_SITE_HOSTS⟩
      = [] := by
  refine ⟨by decide, by decide, by decide⟩

/-- C4 (amended): on the injected-records pipeline path, every capture in
the canonical fetch sequence has an original URL free of query string and
fragment (`_record_in_window` filters them); the live-discovery path
applies no such filter. -/
theorem c4_injected_path_excludes_query_and_fragment
    (records : List CaptureRecord) (config : RecoveryConfig) (r : CaptureRecord)
    (hr : r ∈ injected_canonical records config) :
    strIsEmpty (urlparse r.original).query = true
      ∧ strIsEmpty (urlparse r.original).fragment = true := by
  unfold injected_canonical at hr
  have h1 := restrictCanonical_subset _ _ _ hr
  unfold sort_by_recovery_order at h1
  have h2 := (mem_pySorted _ _ _).mp h1
  obtain ⟨p, hp, hsnd⟩ := List.mem_map.mp h2
  have h3 := canonicalize_mem _ _ _ _ p hp
  rw [hsnd] at h3
  have h4 := (List.mem_filter.mp h3).2
  unfold record_in_window at h4
  by_cases hq : (!(strIsEmpty (urlparse r.original).query)
      || !(strIsEmpty (urlparse r.original).fragment)) = true
  · rw [if_pos hq] at h4
    exact absurd h4 (by simp)
  · have := hq
    simp only [Bool.or_eq_true, Bool.not_eq_true', not_or] at this
    push_neg at this
    exact ⟨by simpa using this.1, by simpa using this.2⟩

/-- C4 witness: the amended exclusion applied to a concrete injected run. -/
theorem c4_injected_path_witness :
    strIsEmpty (urlparse
      (⟨"20180101120000", "http://somethingpositive.net/a.html", "text/html", 200, none⟩ :
        CaptureRecord).original).query = true
    ∧ strIsEmpty (urlparse
      (⟨"20180101120000", "http://somethingpositive.net/a.html", "text/html", 200, none⟩ :
        CaptureRecord).original).fragment = true :=
  c4_injected_path_excludes_query_and_fragment
    [⟨"20180101120000", "http://somethingpositive.net/a.html", "text/html", 200, none⟩]
    ⟨"somethingpositive.net", "00000000000000", "99999999999999", "out", 0, [],
      DEFAULT_CANONICAL_SITE_HOST, DEFAULT_EQUIVALENT_SITE_HOSTS⟩
    _ (by decide)

/-! ### SHA-256 (embedding `hashlib.sha256(...).hexdigest()`)

A direct FIPS 180-4 implementation over `Nat` with explicit `% 2^32`
reductions, structurally recursive throughout so concrete hashes evaluate
in the kernel. -/

def w32 (n : Nat) : Nat := n % 4294967296

def rotr32 (n x : Nat) : Nat := w32 ((x >>> n) ||| (x <<< (32 - n)))

def sha_ch (x y z : Nat) : Nat := (x &&& y) ^^^ ((x ^^^ 4294967295) &&& z)

def sha_maj (x y z : Nat) : Nat := (x &&& y) ^^^ (x &&& z) ^^^ (y &&& z)

def sha_bsig0 (x : Nat) : Nat := rotr32 2 x ^^^ rotr32 13 x ^^^ rotr32 22 x

def sha_bsig1 (x : Nat) : Nat := rotr32 6 x ^^^ rotr32 11 x ^^^ rotr32 25 x

def sha_ssig0 (x : Nat) : Nat := rotr32 7 x ^^^ rotr32 18 x ^^^ (x >>> 3)

def sha_ssig1 (x : Nat) : Nat := rotr32 17 x ^^^ rotr32 19 x ^^^ (x >>> 10)

def SHA_K : List Nat :=
  [1116352408, 1899447441, 3049323471, 3921009573, 961987163,
   1508970993, 2453635748, 2870763221, 3624381080, 310598401,
   607225278, 1426881987, 1925078388, 2162078206, 2614888103,
   3248222580, 3835390401, 4022224774, 264347078, 604807628,
   770255983, 1249150122, 1555081692, 1996064986, 2554220882,
   2821834349, 2952996808, 3210313671, 3336571891, 3584528711,
   113926993, 338241895, 666307205, 773529912, 1294757372,
   1396182291, 1695183700, 1986661051, 2177026350, 2456956037,
   2730485921, 2820302411, 3259730800, 3345764771, 3516065817,
   3600352804, 4094571909, 275423344, 430227734, 506948616,
   659060556, 883997877, 958139571, 1322822218, 1537002063,
   1747873779, 1955562222, 2024104815, 2227730452, 2361852424,
   2428436474, 2756734187, 3204031479, 3329325298]

def SHA_H0 : List Nat :=
  [1779033703, 3144134277, 1013904242, 2773480762,
   1359893119, 2600822924, 528734635, 1541459225]

/-- Big-endian byte expansion, `k` bytes. -/
def beBytes (k n : Nat) : List Nat :=
  (List.range k).map (fun i => (n >>> (8 * (k - 1 - i))) % 256)

/-- SHA-256 padding: `0x80`, zeros to 56 mod 64, 8-byte big-endian bit length. -/
def sha_pad (msg : List Nat) : List Nat :=
  let len := msg.length
  let z := (119 - (len % 64)) % 64
  msg ++ [128] ++ List.replicate z 0 ++ beBytes 8 (8 * len)

/-- Split a byte list into 64-byte blocks (input length is a multiple of 64). -/
def splitBlocks (cur : List Nat) : List Nat → List (List Nat)
  | [] => if cur.isEmpty then [] else [cur]
  | b :: bs =>
      if cur.length = 63 then (cur ++ [b]) :: splitBlocks [] bs
      else splitBlocks (cur ++ [b]) bs

/-- Big-endian bytes to 32-bit words. -/
def bytesToWords : List Nat → List Nat
  | a :: b :: c :: d :: rest =>
      (a * 16777216 + b * 65536 + c * 256 + d) :: bytesToWords rest
  | _ => []

/-- Append one word of the message schedule. -/
def scheduleStep (ws : List Nat) : List Nat :=
  let n := ws.length
  let get := fun i => ws.getD i 0
  ws ++ [w32 (sha_ssig1 (get (n - 2)) + get (n - 7) + sha_ssig0 (get (n - 15)) + get (n - 16))]

def extendSchedule (ws : List Nat) : Nat → List Nat
  | 0 => ws
  | k + 1 => extendSchedule (scheduleStep ws) k

def compressRound (st : List Nat) (kw : Nat × Nat) : List Nat :=
  match st with
  | [a, b, c, d, e, f, g, h] =>
      let t1 := w32 (h + sha_bsig1 e + sha_ch e f g + kw.1 + kw.2)
      let t2 := w32 (sha_bsig0 a + sha_maj a b c)
      [w32 (t1 + t2), a, b, c, w32 (d + t1), e, f, g]
  | _ => st

def processBlock (h : List Nat) (block : List Nat) : List Nat :=
  let ws := extendSchedule (bytesToWords block) 48
  let st := (SHA_K.zip ws).foldl compressRound h
  (h.zip st).map (fun p => w32 (p.1 + p.2))

def sha256_digest_words (msg : List Nat) : List Nat :=
  (splitBlocks [] (sha_pad msg)).foldl processBlock SHA_H0

def hexChar (n : Nat) : Char :=
  if n < 10 then Char.ofNat (48 + n) else Char.ofNat (87 + n)

def byteToHexChars (b : Nat) : List Char := [hexChar (b / 16), hexChar (b % 16)]

def wordToBytes (w : Nat) : List Nat :=
  [(w >>> 24) % 256, (w >>> 16) % 256, (w >>> 8) % 256, w % 256]

/-- `sha256_hex` (from `io_utils.py`): lowercase hex digest of the SHA-256
of a byte string. -/
def sha256_hex (msg : List Nat) : String :=
  ⟨((sha256_digest_words msg).foldr (fun w acc => wordToBytes w ++ acc) []).foldr
      (fun b acc => byteToHexChars b ++ acc) []⟩

/-! ### Artifact recovery (embedding `sp_recovery/recover.py`)

The on-disk output tree is embedded as an explicit map from path strings to
byte contents (`none` = absent).  A fetcher either returns `(status, body)`
or raises, embedded as `Except` with the exception's `(type name, message)`
pair; Python's bounded retry loop around a deterministic fetcher collapses
to the recursion below, which keeps the final error for the diagnostic.
`time.sleep` has no observable effect in the pure model. -/

def FileSystem : Type := String → Option (List Nat)

def Fetcher : Type := String → Except (String × String) (Int × List Nat)

structure ProvenanceRecord where
  original_url : String
  timestamp : String
  source_url : String
  local_path : String
  sha256 : String
  status : String
deriving DecidableEq

def build_wayback_replay_url (timestamp original_url : String) : String :=
  "https://web.archive.org/web/" ++ timestamp ++ "id_/" ++ original_url

/-- `local_relpath_from_original`: canonical host, path with directory-style
URLs mapped to an `index.html` leaf, leading slashes stripped. -/
def local_relpath_from_original (original_url : String)
    (canonical_host : String := DEFAULT_CANONICAL_SITE_HOST)
    (equivalent_hosts : List String := DEFAULT_EQUIVALENT_SITE_HOSTS) : String :=
  let parsed := urlparse original_url
  let host := canonicalize_site_host parsed.netloc canonical_host equivalent_hosts
  let path0 := if strIsEmpty parsed.path then "/" else parsed.path
  let path := if strEnds path0 "/" then path0 ++ "index.html" else path0
  host ++ "/" ++ lstripSlashes path

/-- The joined destination path `output_root / local_relpath`. -/
def recovery_destination (output_root : String) (original_url : String)
    (canonical_host : String := DEFAULT_CANONICAL_SITE_HOST)
    (equivalent_hosts : List String := DEFAULT_EQUIVALENT_SITE_HOSTS) : String :=
  output_root ++ "/" ++ local_relpath_from_original original_url canonical_host equivalent_hosts

/-- The bounded retry loop around the fetch call (attempt count ≥ 1). -/
def retryFetch (fetcher : Fetcher) (source_url : String) :
    Nat → Except (String × String) (Int × List Nat)
  | 0 => fetcher source_url
  | 1 => fetcher source_url
  | n + 2 =>
      match fetcher source_url with
      | Except.ok r => Except.ok r
      | Except.error _ => retryFetch fetcher source_url (n + 1)

/-- `recover_capture`: skip existing non-empty destinations, otherwise fetch
with bounded retries; write only on a 200. -/
def recover_capture (capture : CaptureRecord) (output_root : String)
    (fs : FileSystem) (fetcher : Fetcher) (max_retries : Nat := 3)
    (canonical_host : String := DEFAULT_CANONICAL_SITE_HOST)
    (equivalent_hosts : List String := DEFAULT_EQUIVALENT_SITE_HOSTS) :
    ProvenanceRecord × FileSystem :=
  let local_relpath := local_relpath_from_original capture.original canonical_host equivalent_hosts
  let destination := recovery_destination output_root capture.original canonical_host equivalent_hosts
  let source_url := build_wayback_replay_url capture.timestamp capture.original
  let fetchPath : ProvenanceRecord × FileSystem :=
    match retryFetch fetcher source_url (max 1 max_retries) with
    | Except.error (ty, msg) =>
        (⟨capture.original, capture.timestamp, source_url, local_relpath,
          ty ++ ":" ++ msg, "fetch_error"⟩, fs)
    | Except.ok (status_code, payload) =>
        let status :=
          if status_code = 200 then "recovered" else "fetch_failed_" ++ toString status_code
        let fs' : FileSystem :=
          if status_code = 200 then
            fun p => if p = destination then some payload else fs p
          else fs
        (⟨capture.original, capture.timestamp, source_url, local_relpath,
          sha256_hex payload, status⟩, fs')
  match fs destination with
  | some payload =>
      if payload ≠ [] then
        (⟨capture.original, capture.timestamp, source_url, local_relpath,
          sha256_hex payload, "skipped_existing"⟩, fs)
      else fetchPath
  | none => fetchPath

/-- `recover_captures`: fold the schedule through the file system, emitting
one provenance record per capture, in order. -/
def recover_captures (captures : List CaptureRecord) (output_root : String)
    (fs : FileSystem) (fetcher : Fetcher)
    (canonical_host : String := DEFAULT_CANONICAL_SITE_HOST)
    (equivalent_hosts : List String := DEFAULT_EQUIVALENT_SITE_HOSTS) :
    List ProvenanceRecord × FileSystem :=
  captures.foldl
    (fun acc capture =>
      let r := recover_capture capture output_root acc.2 fetcher 3 canonical_host equivalent_hosts
      (acc.1 ++ [r.1], r.2))
    ([], fs)

/-- `recover_phase`: hands `output_root` and the fetcher to
`recover_captures`, leaving the host arguments at their module defaults —
the config's `canonical_host` / `equivalent_hosts` fields are not passed. -/
def recover_phase (config : RecoveryConfig) (canonical_records : List CaptureRecord)
    (fs : FileSystem) (fetcher : Fetcher) : List ProvenanceRecord × FileSystem :=
  recover_captures canonical_records config.output_root fs fetcher
    DEFAULT_CANONICAL_SITE_HOST DEFAULT_EQUIVALENT_SITE_HOSTS

theorem retryFetch_ok (fetcher : Fetcher) (source_url : String)
    (r : Int × List Nat) (h : fetcher source_url = Except.ok r) :
    ∀ n, retryFetch fetcher source_url n = Except.ok r := by
  intro n
  match n with
  | 0 => simpa [retryFetch] using h
  | 1 => simpa [retryFetch] using h
  | n + 2 => simp [retryFetch, h]

/-! ### Claim C3 -/

/-- C3 counterexample: a fetch completing with status 404 and an empty body
yields exactly the `fetch_failed_404` record and writes nothing — but its
`sha256` field is the SHA-256 of the fetched body, not the empty string the
claim requires. -/
theorem c3_counterexample_failed_fetch_sha_not_empty :
    (recover_capture
        ⟨"20240201120000", "http://www.somethingpositive.net/sp02012024.html", "text/html", 200, none⟩
        "out" (fun _ => none) (fun _ => Except.ok (404, []))).1.status = "fetch_failed_404"
    ∧ (recover_capture
        ⟨"20240201120000", "http://www.somethingpositive.net/sp02012024.html", "text/html", 200, none⟩
        "out" (fun _ => none) (fun _ => Except.ok (404, []))).1.sha256 = sha256_hex []
    ∧ (recover_capture
        ⟨"20240201120000", "http://www.somethingpositive.net/sp02012024.html", "text/html", 200, none⟩
        "out" (fun _ => none) (fun _ => Except.ok (404, []))).1.sha256 ≠ ""
    ∧ (recover_capture
        ⟨"20240201120000", "http://www.somethingpositive.net/sp02012024.html", "text/html", 200, none⟩
        "out" (fun _ => none) (fun _ => Except.ok (404, []))).2
        "out/somethingpositive.net/sp02012024.html" = none := by
  refine ⟨rfl, rfl, by decide, rfl⟩

/-- C3 (amended): a fetch attempt completing with a non-200 status writes no
file and produces exactly one record with status `fetch_failed_<code>` and
`sha256` equal to the SHA-256 hex digest of the fetched response body (the
empty-sha256 behavior the spec describes is not what the code does; the
synthetic `"<ErrorKind>:<message>"` string is used for exhausted retries). -/
theorem c3_non200_failed_record_no_write
    (c : CaptureRecord) (output_root : String) (fs : FileSystem) (f : Fetcher)
    (mr : Nat) (code : Int) (payload : List Nat)
    (hcode : code ≠ 200)
    (hfetch : f (build_wayback_replay_url c.timestamp c.original) = Except.ok (code, payload))
    (hdest : fs (recovery_destination output_root c.original) = none
        ∨ fs (recovery_destination output_root c.original) = some []) :
    recover_capture c output_root fs f mr =
      (⟨c.original, c.timestamp, build_wayback_replay_url c.timestamp c.original,
        local_relpath_from_original c.original, sha256_hex payload,
        "fetch_failed_" ++ toString code⟩, fs) := by
  have hr := retryFetch_ok f _ (code, payload) hfetch (max 1 mr)
  rcases hdest with h | h
  · simp [recover_capture, h, hr, hcode]
  · simp [recover_capture, h, hr, hcode]

/-- C3 witness: the amended statement instantiated at a concrete 404 fetch. -/
theorem c3_non200_witness :
    recover_capture
      (⟨"20240201120000", "http://www.somethingpositive.net/sp02012024.html", "text/html", 200, none⟩ :
        CaptureRecord)
      "out" (fun _ => none) (fun _ => Except.ok (404, [120])) 3 =
      (⟨"http://www.somethingpositive.net/sp02012024.html", "20240201120000",
        build_wayback_replay_url "20240201120000" "http://www.somethingpositive.net/sp02012024.html",
        local_relpath_from_original "http://www.somethingpositive.net/sp02012024.html",
        sha256_hex [120], "fetch_failed_" ++ toString (404 : Int)⟩, fun _ => none) :=
  c3_non200_failed_record_no_write _ "out" (fun _ => none) _ 3 404 [120]
    (by decide) rfl (Or.inl rfl)

/-! ### Claim C5 -/

/-- C5: recovery is idempotent via the skip-existing path.  First: when the
destination holds non-empty bytes, `recover_capture` returns the
`skipped_existing` record hashing those bytes, leaves the file system
unchanged, and its result does not depend on the fetcher at all (the
fetcher is never consulted).  Second: after a run that recovered a
non-empty body, a rerun with any fetcher — including one that always
fails — succeeds via skip-existing and alters no on-disk bytes. -/
theorem c5_recover_idempotent_skip_existing :
    (∀ (fs : FileSystem) (root : String) (c : CaptureRecord) (payload : List Nat)
        (f g : Fetcher) (mr mr' : Nat),
      fs (recovery_destination root c.original) = some payload → payload ≠ [] →
      recover_capture c root fs f mr =
          (⟨c.original, c.timestamp, build_wayback_replay_url c.timestamp c.original,
            local_relpath_from_original c.original, sha256_hex payload,
            "skipped_existing"⟩, fs)
        ∧ recover_capture c root fs f mr = recover_capture c root fs g mr')
    ∧ (∀ (fs : FileSystem) (root : String) (c : CaptureRecord) (p : List Nat)
        (f g : Fetcher) (mr mr' : Nat),
      fs (recovery_destination root c.original) = none →
      f (build_wayback_replay_url c.timestamp c.original) = Except.ok (200, p) →
      p ≠ [] →
      (recover_capture c root fs f mr).1.status = "recovered"
        ∧ recover_capture c root ((recover_capture c root fs f mr).2) g mr' =
            (⟨c.original, c.timestamp, build_wayback_replay_url c.timestamp c.original,
              local_relpath_from_original c.original, sha256_hex p,
              "skipped_existing"⟩, (recover_capture c root fs f mr).2)) := by
  constructor
  · intro fs root c payload f g mr mr' hdest hpay
    constructor
    · simp [recover_capture, hdest, hpay]
    · simp [recover_capture, hdest, hpay]
  · intro fs root c p f g mr mr' hdest hfetch hp
    have hr := retryFetch_ok f _ (200, p) hfetch (max 1 mr)
    have hfs1 : (recover_capture c root fs f mr).2 =
        fun pth => if pth = recovery_destination root c.original then some p
          else fs pth := by
      simp [recover_capture, hdest, hr]
    constructor
    · simp [recover_capture, hdest, hr]
    · rw [hfs1]
      simp [recover_capture, hp]

/-- C5 witness: a concrete first run writes the body, and a second run with
an always-raising fetcher is skipped without touching the bytes. -/
theorem c5_recover_idempotent_witness :
    (recover_capture
        (⟨"20240201120000", "http://www.somethingpositive.net/sp02012024.html", "text/html", 200, none⟩ :
          CaptureRecord)
        "out" (fun _ => none) (fun _ => Except.ok (200, [104, 105])) 3).1.status = "recovered"
    ∧ recover_capture
        (⟨"20240201120000", "http://www.somethingpositive.net/sp02012024.html", "text/html", 200, none⟩ :
          CaptureRecord)
        "out"
        ((recover_capture
          (⟨"20240201120000", "http://www.somethingpositive.net/sp02012024.html", "text/html", 200, none⟩ :
            CaptureRecord)
          "out" (fun _ => none) (fun _ => Except.ok (200, [104, 105])) 3).2)
        (fun _ => Except.error ("TimeoutError", "second run must not fetch")) 3 =
        (⟨"http://www.somethingpositive.net/sp02012024.html", "20240201120000",
          build_wayback_replay_url "20240201120000" "http://www.somethingpositive.net/sp02012024.html",
          local_relpath_from_original "http://www.somethingpositive.net/sp02012024.html",
          sha256_hex [104, 105], "skipped_existing"⟩,
         (recover_capture
            (⟨"20240201120000", "http://www.somethingpositive.net/sp02012024.html", "text/html", 200, none⟩ :
              CaptureRecord)
            "out" (fun _ => none) (fun _ => Except.ok (200, [104, 105])) 3).2) :=
  c5_recover_idempotent_skip_existing.2 (fun _ => none) "out" _ [104, 105] _
    (fun _ => Except.error ("TimeoutError", "second run must not fetch")) 3 3
    rfl rfl (by decide)

/-! ### HTML link rewriting (embedding `sp_recovery/rewrite.py`)

`urljoin` is the embedding of `urllib.parse.urljoin` for the http/https
cases the rewriter exercises (absolute, network-relative, root-relative and
relative references, with RFC 3986 dot-segment removal); the `href=`/`src=`
regex scan is embedded as an explicit left-to-right scanner with the same
semantics (case-insensitive attribute name, matching quote character, lazy
value up to the next same quote on the same line). -/

/-- Python `s.split(sep, maxsplit)` on a single separator char. -/
def splitMax (c : Char) : List Char → Nat → List String
  | cs, 0 => [⟨cs⟩]
  | cs, n + 1 =>
      match listSplitFirst (fun x => x = c) cs with
      | some (l, r) => ⟨l⟩ :: splitMax c r n
      | none => [⟨cs⟩]

def splitOnSlash (s : String) : List String :=
  splitMax '/' s.data s.data.length

def joinSlash : List String → String
  | [] => ""
  | [s] => s
  | s :: rest => s ++ "/" ++ joinSlash rest

/-- RFC 3986 dot-segment removal on an absolute-or-merged path. -/
def removeDotSegments (p : String) : String :=
  match splitOnSlash p with
  | [] => p
  | first :: rest =>
      let step := fun (acc : List String) (seg : String) =>
        if seg = "." then acc
        else if seg = ".." then acc.dropLast
        else acc ++ [seg]
      let resolved := rest.foldl step []
      let resolved :=
        if rest ≠ [] && (rest.getLast? = some "." || rest.getLast? = some "..") then
          resolved ++ [""]
        else resolved
      joinSlash (first :: resolved)

/-- Base path up to and including its last slash, then the reference. -/
def mergePaths (basePath rel : String) : String :=
  let cut := (basePath.data.reverse.dropWhile (fun c => c ≠ '/')).reverse
  ⟨cut ++ rel.data⟩

/-- Reassemble URL components (`urllib.parse.urlunparse`). -/
def urlunparse (scheme netloc path params query fragment : String) : String :=
  let path :=
    if !(strIsEmpty netloc) && !(strIsEmpty path) && !(strStarts path "/") then
      "/" ++ path
    else path
  (if strIsEmpty scheme then "" else scheme ++ ":")
    ++ (if strIsEmpty netloc then "" else "//" ++ netloc)
    ++ path
    ++ (if strIsEmpty params then "" else ";" ++ params)
    ++ (if strIsEmpty query then "" else "?" ++ query)
    ++ (if strIsEmpty fragment then "" else "#" ++ fragment)

/-- `urllib.parse.urljoin` for http/https bases. -/
def urljoin (base url : String) : String :=
  if strIsEmpty base then url
  else if strIsEmpty url then base
  else
    let b := urlparse base
    let u := urlparse url
    if !(strIsEmpty u.scheme) && u.scheme ≠ b.scheme then url
    else
      let scheme := if strIsEmpty u.scheme then b.scheme else u.scheme
      if !(strIsEmpty u.netloc) then
        urlunparse scheme u.netloc (removeDotSegments u.path) u.params u.query u.fragment
      else if strIsEmpty u.path && strIsEmpty u.params then
        let q := if strIsEmpty u.query then b.query else u.query
        urlunparse scheme b.netloc b.path b.params q u.fragment
      else
        let path :=
          if strStarts u.path "/" then removeDotSegments u.path
          else removeDotSegments (mergePaths b.path u.path)
        urlunparse scheme b.netloc path u.params u.query u.fragment

/-- `_extract_wayback_original`: unwrap `https://web.archive.org/web/<ts>/<url>`
back to the wrapped original URL. -/
def extract_wayback_original (absolute_url : String) : String :=
  let parsed := urlparse absolute_url
  if parsed.netloc ≠ "web.archive.org" && parsed.netloc ≠ "www.web.archive.org" then
    absolute_url
  else if !(strStarts parsed.path "/web/") then absolute_url
  else
    let parts := splitMax '/' parsed.path.data 3
    if parts.length < 4 then absolute_url
    else
      let candidate := parts.getD 3 ""
      if strStarts candidate "http://" || strStarts candidate "https://" then candidate
      else absolute_url

structure InternalTarget where
  normalized_url : String
  local_path : String
  fragment : String
deriving DecidableEq

/-- `_resolve_internal_target`: skip fragment-only/mailto/javascript/data
targets, resolve against the page URL, unwrap archive wrapping, keep only
internal query-free http(s) targets, and map through the recoverer's
destination-path function. -/
def resolve_internal_target (raw_value : String) (page_original_url : String) :
    Option InternalTarget :=
  let lowered := strLower raw_value
  if strStarts lowered "#" || strStarts lowered "mailto:"
      || strStarts lowered "javascript:" || strStarts lowered "data:" then none
  else
    let absolute := urljoin page_original_url raw_value
    let original := extract_wayback_original absolute
    let parsed := urlparse original
    if parsed.scheme ≠ "http" && parsed.scheme ≠ "https" then none
    else if !(is_internal_site_netloc parsed.netloc) then none
    else if !(strIsEmpty parsed.query) then none
    else
      let normalized_url := canonical_internal_url original
      let local_path := local_relpath_from_original normalized_url
      some ⟨normalized_url, local_path, parsed.fragment⟩

/-- Try to match `(href|src)=` case-insensitively followed by a quote and a
lazily-quoted value (no newline) at the current position; returns the
attribute text as matched, the quote, the value and the remainder. -/
def takeUntilQuote (q : Char) : List Char → Option (List Char × List Char)
  | [] => none
  | c :: cs =>
      if c = q then some ([], cs)
      else if c = '\n' then none
      else match takeUntilQuote q cs with
        | some (v, r) => some (c :: v, r)
        | none => none

def matchAttrAt (cs : List Char) : Option (List Char × Char × List Char × List Char) :=
  let tryFrom := fun (attrLen : Nat) =>
    let after := cs.drop (attrLen + 1)
    match after with
    | q :: rest =>
        if q = '\'' || q = '"' then
          (takeUntilQuote q rest).map (fun vr => (cs.take attrLen, q, vr.1, vr.2))
        else none
    | [] => none
  if (cs.take 5).map Char.toLower = "href=".data then tryFrom 4
  else if (cs.take 4).map Char.toLower = "src=".data then tryFrom 3
  else none

/-- The fuel-indexed scanner: fuel is initialized to the text length and
each step consumes at least one character, so the base case is unreachable. -/
def rewriteScan (page_original_url : String) (known : List String) :
    Nat → List Char → List Char × List (String × String)
  | 0, cs => (cs, [])
  | _ + 1, [] => ([], [])
  | fuel + 1, c :: cs =>
      match matchAttrAt (c :: cs) with
      | some (attrText, q, v, rest) =>
          let raw : String := ⟨v⟩
          let tailResult := rewriteScan page_original_url known fuel rest
          match resolve_internal_target raw page_original_url with
          | none => (attrText ++ '=' :: q :: (v ++ q :: tailResult.1), tailResult.2)
          | some t =>
              let suffix := if strIsEmpty t.fragment then "" else "#" ++ t.fragment
              let rewritten := "/" ++ t.local_path ++ suffix
              let unres :=
                if known.contains t.local_path then tailResult.2
                else (page_original_url, t.local_path) :: tailResult.2
              (attrText ++ '=' :: q :: (rewritten.data ++ q :: tailResult.1), unres)
      | none =>
          let tailResult := rewriteScan page_original_url known fuel cs
          (c :: tailResult.1, tailResult.2)

structure RewriteResult where
  html : String
  unresolved_targets : List (String × String)
deriving DecidableEq

/-- `rewrite_html`: substitute every `href=`/`src=` attribute whose target
resolves internally, collecting unresolved targets in match order. -/
def rewrite_html (html : String) (page_original_url : String)
    (known_local_paths : List String) : RewriteResult :=
  let r := rewriteScan page_original_url known_local_paths html.data.length html.data
  ⟨⟨r.1⟩, r.2⟩

/-- First-seen deduplication (`dict.fromkeys`). -/
def dedupFirstSeen (l : List (String × String)) : List (String × String) :=
  l.foldl (fun acc p => if acc.contains p then acc else acc ++ [p]) []

/-- Known successful local paths, as `rewrite_recovered_html_files` builds
them from the provenance records. -/
def known_recovered_paths (provenance : List ProvenanceRecord) : List String :=
  (provenance.filter
    (fun r => r.status = "recovered" || r.status = "skipped_existing")).map
    (·.local_path)

/-- The pure aggregation core of `rewrite_recovered_html_files`: rewrite each
page against the known recovered paths, concatenate the per-page unresolved
lists in order, and deduplicate first-seen (the on-disk selection of which
pages get rewritten — successful provenance with an HTML extension — and
the file I/O around it are environmental). -/
def rewrite_pages (pages : List (String × String)) (known_local_paths : List String) :
    List (String × String) × List (String × String) :=
  let results := pages.map (fun pg => (pg.1, rewrite_html pg.2 pg.1 known_local_paths))
  (results.map (fun r => (r.1, r.2.html)),
   dedupFirstSeen (results.foldl (fun acc r => acc ++ r.2.unresolved_targets) []))

/-! ### Claim C7 -/

/-- C7 counterexample: the rewriter takes no configuration — it always uses
the module-default canonical host `somethingpositive.net`.  A relative link
on a `site.org` page is therefore treated as external and left byte-
identical (and recorded nowhere), not rewritten to `/site.org/next.html`
as the claim's `site.org` configuration requires. -/
theorem c7_counterexample_site_org_not_rewritten :
    rewrite_html "<a href=\"next.html\">n</a>" "http://site.org/current.html"
        ["site.org/next.html"]
      = ⟨"<a href=\"next.html\">n</a>", []⟩ := by
  decide

set_option maxRecDepth 4000 in
/-- C7 (amended): with the rewriter's fixed default canonical host
`somethingpositive.net`, a relative `href="next.html"` on
`http://somethingpositive.net/current.html` whose target is in the known
recovered set rewrites to the root-relative mirror path
`/somethingpositive.net/next.html`; an external
`href="https://other.org/x"` stays byte-identical; an unresolvable internal
target is still rewritten to its computed local path while its fragment is
preserved, and the aggregated unresolved-link list records it exactly once
per (source page, target path) pair. -/
theorem c7_rewrite_html_default_host :
    rewrite_html
        "<a href=\"next.html\">a</a><a href=\"https://other.org/x\">b</a><a href=\"missing.html#frag\">c</a>"
        "http://somethingpositive.net/current.html"
        ["somethingpositive.net/next.html"]
      = ⟨"<a href=\"/somethingpositive.net/next.html\">a</a><a href=\"https://other.org/x\">b</a><a href=\"/somethingpositive.net/missing.html#frag\">c</a>",
         [("http://somethingpositive.net/current.html", "somethingpositive.net/missing.html")]⟩
    ∧ (rewrite_pages
        [("http://somethingpositive.net/current.html",
          "<a href=\"missing.html\">c</a><img src=\"missing.html\">")]
        []).2
      = [("http://somethingpositive.net/current.html", "somethingpositive.net/missing.html")] := by
  exact ⟨by decide, by decide⟩

/-! ### Claim C10 -/

/-- C10: recovery destinations and link rewriting do not depend on the
configuration's `canonical_host` / `equivalent_hosts` fields: for two
configurations equal in every other field, `recover_phase` produces
identical results (hence identical `local_path` values) because it passes
the module-level defaults to `recover_captures`, and the rewriting of any
pages against the resulting known recovered paths is likewise identical
(the rewrite functions take no configuration at all). -/
theorem c10_recover_phase_ignores_config_hosts
    (cfg1 cfg2 : RecoveryConfig) (records : List CaptureRecord)
    (fs : FileSystem) (fetcher : Fetcher)
    (_hdomain : cfg1.domain = cfg2.domain)
    (_hfrom : cfg1.from_timestamp = cfg2.from_timestamp)
    (_hto : cfg1.effective_to_timestamp = cfg2.effective_to_timestamp)
    (hroot : cfg1.output_root = cfg2.output_root)
    (_hmax : cfg1.max_canonical = cfg2.max_canonical)
    (_hmiss : cfg1.only_missing_urls = cfg2.only_missing_urls) :
    recover_phase cfg1 records fs fetcher = recover_phase cfg2 records fs fetcher
    ∧ (recover_phase cfg1 records fs fetcher).1.map (·.local_path)
        = (recover_phase cfg2 records fs fetcher).1.map (·.local_path)
    ∧ ∀ pages,
        rewrite_pages pages
            (known_recovered_paths (recover_phase cfg1 records fs fetcher).1)
          = rewrite_pages pages
            (known_recovered_paths (recover_phase cfg2 records fs fetcher).1) := by
  have h : recover_phase cfg1 records fs fetcher = recover_phase cfg2 records fs fetcher := by
    unfold recover_phase
    rw [hroot]
  exact ⟨h, by rw [h], fun pages => by rw [h]⟩

/-- C10 witness: two concrete configurations differing only in their host
fields produce identical recovery results. -/
theorem c10_recover_phase_witness :
    recover_phase
        ⟨"somethingpositive.net", "00000000000000", "99999999999999", "out", 0, [],
          "site.org", ["site.org", "www.site.org"]⟩
        [⟨"20240201120000", "http://www.somethingpositive.net/sp02012024.html", "text/html", 200, none⟩]
        (fun _ => none) (fun _ => Except.ok (200, [104]))
      = recover_phase
        ⟨"somethingpositive.net", "00000000000000", "99999999999999", "out", 0, [],
          DEFAULT_CANONICAL_SITE_HOST, DEFAULT_EQUIVALENT_SITE_HOSTS⟩
        [⟨"20240201120000", "http://www.somethingpositive.net/sp02012024.html", "text/html", 200, none⟩]
        (fun _ => none) (fun _ => Except.ok (200, [104])) :=
  (c10_recover_phase_ignores_config_hosts _ _ _ _ _ rfl rfl rfl rfl rfl rfl).1

/-! ### CDX discovery pagination (embedding `fetch_cdx_records` and friends)

The `while True` pagination loop is embedded as a fuel-indexed step
function: `none` means the fuel ran out with the loop still running, `some`
carries the final state.  `cdx_terminates` says some fuel suffices — i.e.
the Python loop halts.  The state records the number of fetcher calls made
(`pages`) so "stops after the second page" is expressible. -/

def hexUpper (n : Nat) : Char :=
  if n < 10 then Char.ofNat (48 + n) else Char.ofNat (55 + n)

/-- `urllib.parse.quote_plus` on ASCII data: alphanumerics and `_.-~` kept,
space to `+`, everything else percent-encoded. -/
def quotePlusChar (c : Char) : List Char :=
  if c.isAlphanum || c = '_' || c = '.' || c = '-' || c = '~' then [c]
  else if c = ' ' then ['+']
  else ['%', hexUpper (c.toNat / 16), hexUpper (c.toNat % 16)]

def quote_plus (s : String) : String :=
  ⟨s.data.foldr (fun c acc => quotePlusChar c ++ acc) []⟩

def joinWith (sep : String) : List String → String
  | [] => ""
  | [s] => s
  | s :: rest => s ++ sep ++ joinWith sep rest

/-- `urllib.parse.urlencode` over an ordered parameter list. -/
def urlencode (params : List (String × String)) : String :=
  joinWith "&" (params.map (fun p => quote_plus p.1 ++ "=" ++ quote_plus p.2))

def CDX_ENDPOINT : String := "https://web.archive.org/cdx/search/cdx"

def DEFAULT_FIELDS : List String :=
  ["timestamp", "original", "mimetype", "statuscode", "digest"]

def DEFAULT_CDX_PAGE_SIZE : Int := 5000

/-- `build_cdx_query_url` with the default field list. -/
def build_cdx_query_url (url_pattern from_timestamp to_timestamp : String)
    (resume_key : Option String) (limit : Int) : String :=
  let params : List (String × String) :=
    [("url", url_pattern), ("from", from_timestamp), ("to", to_timestamp),
     ("output", "json"), ("fl", joinWith "," DEFAULT_FIELDS),
     ("showResumeKey", "true"), ("matchType", "domain"),
     ("filter", "statuscode:200"), ("collapse", "urlkey")]
  let params :=
    match resume_key with
    | some k => if k ≠ "" then params ++ [("resumeKey", k)] else params
    | none => params
  let params := if limit > 0 then params ++ [("limit", toString limit)] else params
  CDX_ENDPOINT ++ "?" ++ urlencode params

/-- One JSON item of a CDX response payload: an all-string array, or anything
else (non-arrays and arrays with non-string members are both skipped). -/
inductive CdxItem where
  | strRow (cells : List String)
  | badItem
deriving DecidableEq

/-- `split_cdx_rows_and_resume_key`: collect multi-cell string rows, keep
the latest single-string row as the continuation token. -/
def split_cdx_rows_and_resume_key (payload : List CdxItem) :
    List (List String) × Option String :=
  payload.foldl
    (fun acc item =>
      match item with
      | CdxItem.badItem => acc
      | CdxItem.strRow [] => acc
      | CdxItem.strRow [s] => (acc.1, some s)
      | CdxItem.strRow cells => (acc.1 ++ [cells], acc.2))
    ([], none)

/-- Row-map lookup: fields zipped with cells, later duplicate names win. -/
def rowLookup (fields row : List String) (name : String) : Option String :=
  (((fields.zip row).filter (fun p => p.1 = name)).getLast?).map (·.2)

/-- `parse_cdx_rows`: optional header row, then per-row field maps; rows
missing timestamp or original are dropped. -/
def parse_cdx_rows (rows : List (List String)) : List CaptureRecord :=
  match rows with
  | [] => []
  | first_row :: _ =>
      let isHeader := first_row.head? = some "timestamp"
      let field_names := if isHeader then first_row else DEFAULT_FIELDS
      let data_rows := if isHeader then rows.drop 1 else rows
      data_rows.filterMap (fun row =>
        match rowLookup field_names row "timestamp", rowLookup field_names row "original" with
        | some ts, some orig =>
            let mimetype := (rowLookup field_names row "mimetype").getD "application/octet-stream"
            let sc := (rowLookup field_names row "statuscode").getD "0"
            let statuscode := if sc = "" then (0 : Int) else pyInt sc
            some ⟨ts, orig, mimetype, statuscode, rowLookup field_names row "digest"⟩
        | _, _ => none)

def CDXFetcher : Type := String → Except Unit (List CdxItem)

structure CdxLoopState where
  collected : List CaptureRecord
  resume_key : Option String
  remaining : Option Int
  pages : Nat
deriving DecidableEq

/-- The body of `fetch_cdx_records`' `while True` loop, fuel-indexed. -/
def cdxLoop (domain from_timestamp to_timestamp : String) (fetcher : CDXFetcher) :
    Nat → CdxLoopState → Option CdxLoopState
  | 0, _ => none
  | fuel + 1, st =>
      let capReached : Bool := match st.remaining with
        | some r => decide (r ≤ 0)
        | none => false
      if capReached then some st
      else
        let page_limit : Int := match st.remaining with
          | some r => min DEFAULT_CDX_PAGE_SIZE r
          | none => DEFAULT_CDX_PAGE_SIZE
        let url := build_cdx_query_url (domain ++ "/*") from_timestamp to_timestamp
          st.resume_key page_limit
        match fetcher url with
        | Except.error _ => some { st with pages := st.pages + 1 }
        | Except.ok payload =>
            let split := split_cdx_rows_and_resume_key payload
            let page_records := parse_cdx_rows split.1
            let st' : CdxLoopState :=
              { st with collected := st.collected ++ page_records, pages := st.pages + 1 }
            let next_remaining := st.remaining.map
              (fun r => r - (page_records.length : Int))
            let st' := { st' with remaining := next_remaining }
            let capNow : Bool := match next_remaining with
              | some r => decide (r ≤ 0)
              | none => false
            if capNow then some st'
            else
              match split.2 with
              | none => some st'
              | some k =>
                  if k = "" then some st'
                  else if some k = st.resume_key then some st'
                  else if page_records = [] then some st'
                  else cdxLoop domain from_timestamp to_timestamp fetcher fuel
                    { st' with resume_key := some k }

/-- The initial loop state for a given cap. -/
def cdxInitState (limit : Int) : CdxLoopState :=
  ⟨[], none, if limit > 0 then some limit else none, 0⟩

/-- `fetch_cdx_records`: run the loop and truncate to the cap; `none` means
the given fuel did not suffice (the loop was still running). -/
def fetch_cdx_records (domain from_timestamp to_timestamp : String) (limit : Int)
    (fetcher : CDXFetcher) (fuel : Nat) : Option (List CaptureRecord) :=
  (cdxLoop domain from_timestamp to_timestamp fetcher fuel (cdxInitState limit)).map
    (fun st => if limit > 0 then st.collected.take limit.toNat else st.collected)

/-- Termination of the Python loop: some fuel completes it. -/
def cdx_terminates (domain from_timestamp to_timestamp : String) (limit : Int)
    (fetcher : CDXFetcher) : Prop :=
  ∃ fuel, (cdxLoop domain from_timestamp to_timestamp fetcher fuel
    (cdxInitState limit)).isSome = true

/-! ### Claim C9 -/

/-- A concrete usable CDX data row. -/
def cdxRowX : CdxItem :=
  CdxItem.strRow ["20180101120000", "http://somethingpositive.net/x.html", "text/html", "200", "X"]

def cdxFrom : String := "20010101000000"

def cdxTo : String := "20191231235959"

/-- The query URL the loop issues when resuming from token `"a"` uncapped. -/
def cdxUrlA : String :=
  build_cdx_query_url "somethingpositive.net/*" cdxFrom cdxTo (some "a") 5000

/-- A fetcher that answers the token-`"a"` page with token `"b"` and every
other page with token `"a"` — an upstream that alternates two distinct
continuation tokens forever, each page carrying one usable record. -/
def altCdxFetcher : CDXFetcher := fun url =>
  Except.ok (if url = cdxUrlA then [cdxRowX, CdxItem.strRow ["b"]]
             else [cdxRowX, CdxItem.strRow ["a"]])

set_option maxRecDepth 100000 in
theorem altCdx_step_init (fuel : Nat) :
    cdxLoop "somethingpositive.net" cdxFrom cdxTo altCdxFetcher (fuel + 1)
        (cdxInitState 0) =
      cdxLoop "somethingpositive.net" cdxFrom cdxTo altCdxFetcher fuel
        ⟨[parse_cdx_rows [["20180101120000", "http://somethingpositive.net/x.html",
            "text/html", "200", "X"]]].flatten, some "a", none, 1⟩ := by
  rfl

set_option maxRecDepth 100000 in
theorem altCdx_step_a (fuel : Nat) (col : List CaptureRecord) (pg : Nat) :
    cdxLoop "somethingpositive.net" cdxFrom cdxTo altCdxFetcher (fuel + 1)
        ⟨col, some "a", none, pg⟩ =
      cdxLoop "somethingpositive.net" cdxFrom cdxTo altCdxFetcher fuel
        ⟨col ++ parse_cdx_rows [["20180101120000", "http://somethingpositive.net/x.html",
            "text/html", "200", "X"]], some "b", none, pg + 1⟩ := by
  rfl

set_option maxRecDepth 100000 in
theorem altCdx_step_b (fuel : Nat) (col : List CaptureRecord) (pg : Nat) :
    cdxLoop "somethingpositive.net" cdxFrom cdxTo altCdxFetcher (fuel + 1)
        ⟨col, some "b", none, pg⟩ =
      cdxLoop "somethingpositive.net" cdxFrom cdxTo altCdxFetcher fuel
        ⟨col ++ parse_cdx_rows [["20180101120000", "http://somethingpositive.net/x.html",
            "text/html", "200", "X"]], some "a", none, pg + 1⟩ := by
  rfl

theorem altCdx_never_stops : ∀ fuel : Nat,
    (∀ col pg, cdxLoop "somethingpositive.net" cdxFrom cdxTo altCdxFetcher fuel
        ⟨col, some "a", none, pg⟩ = none)
    ∧ (∀ col pg, cdxLoop "somethingpositive.net" cdxFrom cdxTo altCdxFetcher fuel
        ⟨col, some "b", none, pg⟩ = none) := by
  intro fuel
  induction fuel with
  | zero => exact ⟨fun _ _ => rfl, fun _ _ => rfl⟩
  | succ n ih =>
      exact ⟨fun col pg => (altCdx_step_a n col pg).trans (ih.2 _ _),
             fun col pg => (altCdx_step_b n col pg).trans (ih.1 _ _)⟩

/-- C9 counterexample: an uncapped run against a fetcher that alternates the
continuation tokens `"a"` and `"b"` forever — each page carrying a usable
record — never reaches any of the loop's stop conditions, so
`fetch_cdx_records` does not terminate: pagination does not *always*
terminate. -/
theorem c9_counterexample_alternating_tokens_diverge :
    ¬ cdx_terminates "somethingpositive.net" cdxFrom cdxTo 0 altCdxFetcher := by
  rintro ⟨fuel, hsome⟩
  match fuel, hsome with
  | 0, hsome => simp [cdxLoop, cdxInitState] at hsome
  | fuel + 1, hsome =>
      rw [altCdx_step_init fuel] at hsome
      rw [(altCdx_never_stops fuel).1 _ _] at hsome
      simp at hsome

/-- One uncapped loop iteration, given the fetcher's answer for the page. -/
theorem cdxLoop_step_uncapped (domain f t : String) (fetcher : CDXFetcher)
    (fuel : Nat) (col : List CaptureRecord) (rk : Option String) (pg : Nat)
    (payload : List CdxItem)
    (hf : fetcher (build_cdx_query_url (domain ++ "/*") f t rk DEFAULT_CDX_PAGE_SIZE)
      = Except.ok payload) :
    cdxLoop domain f t fetcher (fuel + 1) ⟨col, rk, none, pg⟩ =
      (match (split_cdx_rows_and_resume_key payload).2 with
       | none => some ⟨col ++ parse_cdx_rows (split_cdx_rows_and_resume_key payload).1,
           rk, none, pg + 1⟩
       | some k =>
           if k = "" then
             some ⟨col ++ parse_cdx_rows (split_cdx_rows_and_resume_key payload).1,
               rk, none, pg + 1⟩
           else if some k = rk then
             some ⟨col ++ parse_cdx_rows (split_cdx_rows_and_resume_key payload).1,
               rk, none, pg + 1⟩
           else if parse_cdx_rows (split_cdx_rows_and_resume_key payload).1 = [] then
             some ⟨col ++ parse_cdx_rows (split_cdx_rows_and_resume_key payload).1,
               rk, none, pg + 1⟩
           else cdxLoop domain f t fetcher fuel
             ⟨col ++ parse_cdx_rows (split_cdx_rows_and_resume_key payload).1,
               some k, none, pg + 1⟩) := by
  simp only [cdxLoop]
  rw [hf]
  exact rfl

/-- C9 (amended): the loop's stop conditions are checked in the code's
priority order, and a stop condition is the only way it halts — it is not
unconditionally terminating (see the alternating-token counterexample).
In particular, for every fetcher whose first page yields a non-empty token
`k` and usable records and whose `k`-resumed second page yields the same
token `k`, the uncapped run terminates after exactly two page fetches. -/
theorem c9_same_token_stops_after_second_page
    (domain f t : String) (fetcher : CDXFetcher)
    (payload1 payload2 : List CdxItem) (k : String)
    (h1 : fetcher (build_cdx_query_url (domain ++ "/*") f t none DEFAULT_CDX_PAGE_SIZE)
      = Except.ok payload1)
    (hk1 : (split_cdx_rows_and_resume_key payload1).2 = some k)
    (hkne : k ≠ "")
    (hrec : parse_cdx_rows (split_cdx_rows_and_resume_key payload1).1 ≠ [])
    (h2 : fetcher (build_cdx_query_url (domain ++ "/*") f t (some k) DEFAULT_CDX_PAGE_SIZE)
      = Except.ok payload2)
    (hk2 : (split_cdx_rows_and_resume_key payload2).2 = some k) :
    cdx_terminates domain f t 0 fetcher
    ∧ ∀ fuel, 2 ≤ fuel →
        ∃ st, cdxLoop domain f t fetcher fuel (cdxInitState 0) = some st
          ∧ st.pages = 2 := by
  have hrun : ∀ n, cdxLoop domain f t fetcher (n + 2) (cdxInitState 0) =
      some ⟨parse_cdx_rows (split_cdx_rows_and_resume_key payload1).1
        ++ parse_cdx_rows (split_cdx_rows_and_resume_key payload2).1,
        some k, none, 2⟩ := by
    intro n
    have hinit : cdxInitState 0 = ⟨[], none, none, 0⟩ := rfl
    rw [hinit]
    rw [show n + 2 = (n + 1) + 1 by omega]
    rw [cdxLoop_step_uncapped domain f t fetcher (n + 1) [] none 0 payload1 h1]
    rw [hk1]
    simp only [reduceCtorEq, if_neg hkne, if_neg (by simp : ¬(some k = (none : Option String))),
      if_neg hrec]
    rw [cdxLoop_step_uncapped domain f t fetcher n _ (some k) 1 payload2 h2]
    rw [hk2]
    simp only [if_neg hkne, if_pos rfl]
    simp
  constructor
  · exact ⟨2, by rw [hrun 0]; rfl⟩
  · intro fuel hfuel
    obtain ⟨n, rfl⟩ : ∃ n, fuel = n + 2 := ⟨fuel - 2, by omega⟩
    exact ⟨_, hrun n, rfl⟩

/-- A fetcher that always answers with the same token `"k1"` and one usable
record. -/
def constCdxFetcher : CDXFetcher := fun _ =>
  Except.ok [cdxRowX, CdxItem.strRow ["k1"]]

/-- C9 witness: against the constant-token fetcher the uncapped run
terminates after exactly two page fetches. -/
theorem c9_same_token_witness :
    cdx_terminates "somethingpositive.net" cdxFrom cdxTo 0 constCdxFetcher
    ∧ ∀ fuel, 2 ≤ fuel →
        ∃ st, cdxLoop "somethingpositive.net" cdxFrom cdxTo constCdxFetcher fuel
          (cdxInitState 0) = some st ∧ st.pages = 2 :=
  c9_same_token_stops_after_second_page "somethingpositive.net" cdxFrom cdxTo
    constCdxFetcher _ _ "k1" rfl rfl (by decide) (by decide) rfl rfl

/-- C8 witness: the equivalence applied at concrete hosts — two equivalent
spellings canonicalize identically. -/
theorem c8_host_canonicalization_witness :
    canonicalize_site_host "www.example.org" "example.org"
        (default_equivalent_hosts "example.org")
      = canonicalize_site_host "EXAMPLE.ORG." "example.org"
        (default_equivalent_hosts "example.org") :=
  c8_host_canonicalization_equivalence.1.1.trans
    c8_host_canonicalization_equivalence.1.2.2.symm
